import Mathlib

/-!
# EventBridge enumerators and the credential resolver

A shallow embedding of `provider/describer/eventbridge.go` (`EventBridgeBus`,
`EventBridgeRule`) and of `provider/config.go` (`GetConfig`).

The Go code talks to three outside parties: the provider API (through the
SDK client), the optional stream sender, and the SDK configuration loader.
Each of them is a deterministic state machine here: a call takes the
party's current state and gives the answer together with the next state.
Every interaction is appended to a trace, so that statements about the
order and number of calls can be made.  An unbounded Go `for` loop is a
recursion on a fuel counter; `none` as a result means the loop had not
finished when the fuel ran out.

Pointer fields that the code dereferences without a nil test (`*bus.Arn`,
`*bus.Name`, `*rule.Arn`, `*rule.Name`) are plain strings: the provider
always fills them.  Pointer fields that are only handed on (`NextToken`,
`listRule.Name`) are options.
-/

namespace Describer

/-! ## Errors -/

/-- A Go `error` value as the enumerators can observe it: the provider error
code it carries, if it is an API error at all, and its message. -/
structure Err where
  code : Option String
  message : String
deriving DecidableEq, Repr

/-- Modelled from the spec: the helper `isErr` of package `describer` is not
among the sources.  Section 4.3: given an error value and a target
error-code name, determine whether the error's code matches. -/
def isErr (err : Err) (code : String) : Bool :=
  err.code == some code

/-! ## Provider records -/

structure Tag where
  Key : String
  Value : String
deriving DecidableEq, Repr

structure EventBus where
  Arn : String
  Name : String
  Policy : Option String
deriving DecidableEq, Repr

structure ListEventBusesInput where
  Limit : Option Nat
  NextToken : Option String
deriving DecidableEq, Repr

structure ListEventBusesOutput where
  EventBuses : List EventBus
  NextToken : Option String
deriving DecidableEq, Repr

structure ListTagsForResourceOutput where
  Tags : List Tag
deriving DecidableEq, Repr

structure Rule where
  Arn : Option String
  Name : Option String
deriving DecidableEq, Repr

structure ListRulesOutput where
  Rules : List Rule
  NextToken : Option String
deriving DecidableEq, Repr

structure DescribeRuleOutput where
  Arn : String
  Name : String
  EventPattern : Option String
deriving DecidableEq, Repr

structure Target where
  Id : String
  Arn : String
deriving DecidableEq, Repr

structure ListTargetsByRuleOutput where
  Targets : List Target
deriving DecidableEq, Repr

/-! ## The uniform record -/

inductive Description where
  | EventBridgeBusDescription (Bus : EventBus) (Tags : List Tag)
  | EventBridgeRuleDescription (Rule : DescribeRuleOutput) (Tags : List Tag)
      (Targets : List Target)
deriving DecidableEq, Repr

structure Resource where
  Region : String
  ARN : String
  Name : String
  Description : Description
deriving DecidableEq, Repr

/-! ## The outside world -/

/-- The EventBridge client: each operation answers from the provider state
and moves it on. -/
structure Client (σ : Type) where
  ListEventBuses : ListEventBusesInput → σ → Except Err ListEventBusesOutput × σ
  ListTagsForResource : String → σ → Except Err ListTagsForResourceOutput × σ
  ListRules : Option String → σ → Except Err ListRulesOutput × σ
  DescribeRule : Option String → σ → Except Err DescribeRuleOutput × σ
  ListTargetsByRule : Option String → σ → Except Err ListTargetsByRuleOutput × σ

/-- The Go type `StreamSender func(Resource) error`, a closure with a state
of its own; `none` is the nil error. -/
abbrev StreamSender (τ : Type) := Resource → τ → Option Err × τ

inductive Request where
  | ListEventBuses (input : ListEventBusesInput)
  | ListTagsForResource (resourceARN : String)
  | ListRules (nextToken : Option String)
  | DescribeRule (name : Option String)
  | ListTargetsByRule (rule : Option String)
deriving DecidableEq, Repr

/-- One interaction with the outside: a provider call with the error it came
back with, or a delivery to the stream sender with the error it came back
with. -/
inductive Event where
  | call (req : Request) (err : Option Err)
  | deliver (resource : Resource) (err : Option Err)
deriving DecidableEq, Repr

structure World (σ τ : Type) where
  upstream : σ
  sink : τ
  trace : List Event

/-- The error of a call result, `none` for success. -/
def errOf {α : Type} : Except Err α → Option Err
  | .error err => some err
  | .ok _ => none

/-- Perform one provider call and log it. -/
def invoke {σ τ α : Type} (op : σ → Except Err α × σ) (req : Request)
    (w : World σ τ) : Except Err α × World σ τ :=
  ((op w.upstream).1,
    { upstream := (op w.upstream).2, sink := w.sink,
      trace := w.trace ++ [Event.call req (errOf (op w.upstream).1)] })

/-- Perform one call of the stream sender, `(*stream)(resource)`, and log
it. -/
def deliver {σ τ : Type} (send : StreamSender τ) (resource : Resource)
    (w : World σ τ) : Option Err × World σ τ :=
  ((send resource w.sink).1,
    { upstream := w.upstream, sink := (send resource w.sink).2,
      trace := w.trace ++ [Event.deliver resource (send resource w.sink).1] })

/-! ## The emitter (eventbridge.go 46-52 and 113-119)

```go
if stream != nil {
    if err := (*stream)(resource); err != nil {
        return nil, err
    }
} else {
    values = append(values, resource)
}
```

The result is the error of the early `return nil, err`, if it is taken, and
the variable `values` afterwards. -/
def emit {σ τ : Type} (stream : Option (StreamSender τ)) (resource : Resource)
    (values : List Resource) (w : World σ τ) :
    Option Err × List Resource × World σ τ :=
  match stream with
  | some send =>
    match deliver send resource w with
    | (some err, w1) => (some err, values, w1)
    | (none, w1) => (none, values, w1)
  | none => (none, values ++ [resource], w)

/-! ## EventBridgeBus -/

/-- The block after the tag call of `EventBridgeBus` (eventbridge.go 30-35),
applied to the call's result: `.error err` is the early `return nil, err`,
`.ok` is the value of `tagsOutput` afterwards. -/
def EventBridgeBus.tagsOutput (res : Except Err ListTagsForResourceOutput) :
    Except Err ListTagsForResourceOutput :=
  match res with
  | .error err =>
    if (!isErr err "InvalidParameter" && !isErr err "ResourceNotFoundException"
        && !isErr err "ValidationException") = true then
      .error err
    else
      .ok { Tags := [] }
  | .ok out => .ok out

/-- The loop `for _, bus := range response.EventBuses` of `EventBridgeBus`
(eventbridge.go 26-53).  The error component is that of an early
`return nil, err`. -/
def EventBridgeBus.buses {σ τ : Type} (client : Client σ)
    (stream : Option (StreamSender τ)) (region : String) :
    List EventBus → List Resource → World σ τ →
      Option Err × List Resource × World σ τ
  | [], values, w => (none, values, w)
  | bus :: rest, values, w =>
    match invoke (client.ListTagsForResource bus.Arn)
        (Request.ListTagsForResource bus.Arn) w with
    | (res, w1) =>
      match EventBridgeBus.tagsOutput res with
      | .error err => (some err, values, w1)
      | .ok tagsOutput =>
        match emit stream
            { Region := region, ARN := bus.Arn, Name := bus.Name,
              Description := Description.EventBridgeBusDescription bus tagsOutput.Tags }
            values w1 with
        | (some err, values1, w2) => (some err, values1, w2)
        | (none, values1, w2) => EventBridgeBus.buses client stream region rest values1 w2

/-- The outer `for` of `EventBridgeBus` (eventbridge.go 18-58) with the
final `return values, nil`.  The result is the returned pair. -/
def EventBridgeBus.loop {σ τ : Type} (client : Client σ)
    (stream : Option (StreamSender τ)) (region : String) :
    Nat → ListEventBusesInput → List Resource → World σ τ →
      Option (List Resource × Option Err) × World σ τ
  | 0, _, _, w => (none, w)
  | fuel + 1, input, values, w =>
    match invoke (client.ListEventBuses input) (Request.ListEventBuses input) w with
    | (.error err, w1) =>
      if (isErr err "InvalidParameter" || isErr err "ResourceNotFoundException"
          || isErr err "ValidationException") = true then
        (some ([], none), w1)
      else
        (some ([], some err), w1)
    | (.ok response, w1) =>
      match EventBridgeBus.buses client stream region response.EventBuses values w1 with
      | (some err, _, w2) => (some ([], some err), w2)
      | (none, values1, w2) =>
        match response.NextToken with
        | none => (some (values1, none), w2)
        | some tok =>
          EventBridgeBus.loop client stream region fuel
            { input with NextToken := some tok } values1 w2

/-- The function `EventBridgeBus(ctx, cfg, stream)`.  `region` is
`GetDescribeContext(ctx).KaytuRegion`. -/
def EventBridgeBus {σ τ : Type} (client : Client σ)
    (stream : Option (StreamSender τ)) (region : String) (fuel : Nat)
    (w : World σ τ) : Option (List Resource × Option Err) × World σ τ :=
  EventBridgeBus.loop client stream region fuel
    { Limit := some 100, NextToken := none } [] w

/-! ## PaginateRetrieveAll -/

/-- Modelled from the spec: the helper `PaginateRetrieveAll` of package
`describer` is not among the sources.  Section 4.2: call the step function
with an absent cursor first; if it returns an error, the traversal aborts
with that error; if the returned cursor is absent, the traversal ends
successfully; otherwise repeat with the new cursor.  The step function is a
closure over mutable variables, here a state `S` that it transforms. -/
def PaginateRetrieveAll.loop {S : Type}
    (fn : Option String → S → (Option String × Option Err) × S) :
    Nat → Option String → S → Option (Option Err) × S
  | 0, _, s => (none, s)
  | fuel + 1, prevToken, s =>
    match fn prevToken s with
    | ((_, some err), s1) => (some (some err), s1)
    | ((none, none), s1) => (some none, s1)
    | ((some nextToken, none), s1) => PaginateRetrieveAll.loop fn fuel (some nextToken) s1

/-- Modelled from the spec: `PaginateRetrieveAll(fn)`, the traversal of
section 4.2 started with an absent cursor.  The result is the returned
error. -/
def PaginateRetrieveAll {S : Type}
    (fn : Option String → S → (Option String × Option Err) × S)
    (fuel : Nat) (s : S) : Option (Option Err) × S :=
  PaginateRetrieveAll.loop fn fuel none s

/-! ## EventBridgeRule -/

/-- The block after the tag call of `EventBridgeRule` (eventbridge.go 86-91). -/
def EventBridgeRule.tagsOutput (res : Except Err ListTagsForResourceOutput) :
    Except Err ListTagsForResourceOutput :=
  match res with
  | .error err =>
    if (!isErr err "ResourceNotFoundException" && !isErr err "ValidationException") = true then
      .error err
    else
      .ok { Tags := [] }
  | .ok out => .ok out

/-- The block after the targets call of `EventBridgeRule` (eventbridge.go
96-101). -/
def EventBridgeRule.targets (res : Except Err ListTargetsByRuleOutput) :
    Except Err ListTargetsByRuleOutput :=
  match res with
  | .error err =>
    if (!isErr err "ResourceNotFoundException" && !isErr err "ValidationException") = true then
      .error err
    else
      .ok { Targets := [] }
  | .ok out => .ok out

/-- The loop `for _, listRule := range listRulesOutput.Rules` inside the step
closure of `EventBridgeRule` (eventbridge.go 75-121).  The error component
is that of an early `return nil, err` of the closure. -/
def EventBridgeRule.rules {σ τ : Type} (client : Client σ)
    (stream : Option (StreamSender τ)) (region : String) :
    List Rule → List Resource → World σ τ →
      Option Err × List Resource × World σ τ
  | [], values, w => (none, values, w)
  | listRule :: rest, values, w =>
    match invoke (client.DescribeRule listRule.Name)
        (Request.DescribeRule listRule.Name) w with
    | (.error err, w1) => (some err, values, w1)
    | (.ok rule, w1) =>
      match invoke (client.ListTagsForResource rule.Arn)
          (Request.ListTagsForResource rule.Arn) w1 with
      | (tagsRes, w2) =>
        match EventBridgeRule.tagsOutput tagsRes with
        | .error err => (some err, values, w2)
        | .ok tagsOutput =>
          match invoke (client.ListTargetsByRule listRule.Name)
              (Request.ListTargetsByRule listRule.Name) w2 with
          | (targetsRes, w3) =>
            match EventBridgeRule.targets targetsRes with
            | .error err => (some err, values, w3)
            | .ok targets =>
              match emit stream
                  { Region := region, ARN := rule.Arn, Name := rule.Name,
                    Description := Description.EventBridgeRuleDescription rule
                      tagsOutput.Tags targets.Targets }
                  values w3 with
              | (some err, values1, w4) => (some err, values1, w4)
              | (none, values1, w4) =>
                EventBridgeRule.rules client stream region rest values1 w4

/-- The step closure handed to `PaginateRetrieveAll` by `EventBridgeRule`
(eventbridge.go 68-124).  Its state is the captured variable `values`
together with the outside world; its result is `(nextToken, err)`. -/
def EventBridgeRule.fn {σ τ : Type} (client : Client σ)
    (stream : Option (StreamSender τ)) (region : String)
    (prevToken : Option String) (s : List Resource × World σ τ) :
    (Option String × Option Err) × (List Resource × World σ τ) :=
  match invoke (client.ListRules prevToken) (Request.ListRules prevToken) s.2 with
  | (.error err, w1) => ((none, some err), (s.1, w1))
  | (.ok listRulesOutput, w1) =>
    match EventBridgeRule.rules client stream region listRulesOutput.Rules s.1 w1 with
    | (some err, values1, w2) => ((none, some err), (values1, w2))
    | (none, values1, w2) => ((listRulesOutput.NextToken, none), (values1, w2))

/-- The function `EventBridgeRule(ctx, cfg, stream)`.  `region` is
`GetDescribeContext(ctx).KaytuRegion`. -/
def EventBridgeRule {σ τ : Type} (client : Client σ)
    (stream : Option (StreamSender τ)) (region : String) (fuel : Nat)
    (w : World σ τ) : Option (List Resource × Option Err) × World σ τ :=
  match PaginateRetrieveAll (EventBridgeRule.fn client stream region) fuel ([], w) with
  | (none, s) => (none, s.2)
  | (some (some err), s) => (some ([], some err), s.2)
  | (some none, s) => (some (s.1, none), s.2)

/-! ## Observations on a run -/

/-- The two enumerators of eventbridge.go. -/
inductive Enumerator where
  | EventBridgeBus
  | EventBridgeRule
deriving DecidableEq, Repr

/-- Run the named enumerator. -/
def Enumerator.run {σ τ : Type} (e : Enumerator) (client : Client σ)
    (stream : Option (StreamSender τ)) (region : String) (fuel : Nat)
    (w : World σ τ) : Option (List Resource × Option Err) × World σ τ :=
  match e with
  | .EventBridgeBus => Describer.EventBridgeBus client stream region fuel w
  | .EventBridgeRule => Describer.EventBridgeRule client stream region fuel w

/-- The world an enumerator is started in: nothing has happened yet. -/
def World.init {σ τ : Type} (upstream : σ) (sink : τ) : World σ τ :=
  { upstream := upstream, sink := sink, trace := [] }

/-- The absence-class codes of the spec. -/
def absenceClass (err : Err) : Bool :=
  isErr err "InvalidParameter" || isErr err "ResourceNotFoundException"
    || isErr err "ValidationException"

/-- The resources handed to the stream sender, in order. -/
def deliveries : List Event → List Resource
  | [] => []
  | Event.deliver r _ :: rest => r :: deliveries rest
  | Event.call _ _ :: rest => deliveries rest

/-- The provider calls of a trace, in order. -/
def calls : List Event → List Event
  | [] => []
  | Event.deliver _ _ :: rest => calls rest
  | Event.call req err :: rest => Event.call req err :: calls rest

/-- The cursors of the primary list calls (`ListEventBuses`, `ListRules`) of
a trace, in order. -/
def listCursors : List Event → List (Option String)
  | [] => []
  | Event.call (Request.ListEventBuses input) _ :: rest => input.NextToken :: listCursors rest
  | Event.call (Request.ListRules nextToken) _ :: rest => nextToken :: listCursors rest
  | _ :: rest => listCursors rest

/-- The error with which an event makes both enumerators give up at once: a
failed delivery, or a provider call failed with a code outside the absence
class. -/
def Event.fatal : Event → Option Err
  | Event.deliver _ err => err
  | Event.call _ (some err) => if absenceClass err then none else some err
  | Event.call _ none => none

/-- A failed `ListEventBuses` call. -/
def Event.failedListEventBuses : Event → Bool
  | Event.call (Request.ListEventBuses _) (some _) => true
  | _ => false

/-! ## Scripted providers and stream senders -/

/-- A scripted provider: the answers of the successive primary list calls,
and the answers of the per-item calls as functions of the request. -/
structure Script where
  eventBuses : List (Except Err ListEventBusesOutput)
  rules : List (Except Err ListRulesOutput)
  tags : String → Except Err ListTagsForResourceOutput
  describe : Option String → Except Err DescribeRuleOutput
  targets : Option String → Except Err ListTargetsByRuleOutput

/-- The answer of a scripted provider whose pages are used up. -/
def scriptExhausted : Err :=
  { code := none, message := "script exhausted" }

/-- The client that plays a script. -/
def scripted : Client Script where
  ListEventBuses := fun _ s =>
    match s.eventBuses with
    | [] => (.error scriptExhausted, s)
    | page :: rest => (page, { s with eventBuses := rest })
  ListTagsForResource := fun arn s => (s.tags arn, s)
  ListRules := fun _ s =>
    match s.rules with
    | [] => (.error scriptExhausted, s)
    | page :: rest => (page, { s with rules := rest })
  DescribeRule := fun name s => (s.describe name, s)
  ListTargetsByRule := fun rule s => (s.targets rule, s)

/-- A stream sender that keeps what it is given and never fails. -/
def collect : StreamSender (List Resource) :=
  fun resource got => (none, got ++ [resource])

/-- A stream sender that counts its calls and fails with `err` on call
number `k`. -/
def failAt (k : Nat) (err : Err) : StreamSender Nat :=
  fun _ n => (if n + 1 = k then some err else none, n + 1)

/-! ## Notions used to state the properties -/

/-- The tags of a tag-call result, none if the call failed. -/
def tagsOrEmpty : Except Err ListTagsForResourceOutput → List Tag
  | .ok out => out.Tags
  | .error _ => []

/-- The targets of a targets-call result, none if the call failed. -/
def targetsOrEmpty : Except Err ListTargetsByRuleOutput → List Target
  | .ok out => out.Targets
  | .error _ => []

/-- The record expected for a listed bus when the tag call answers `tags`:
the tag set is the answer's, and empty if the tag call fails. -/
def busResource (region : String) (tags : String → Except Err ListTagsForResourceOutput)
    (bus : EventBus) : Resource :=
  { Region := region, ARN := bus.Arn, Name := bus.Name,
    Description := Description.EventBridgeBusDescription bus (tagsOrEmpty (tags bus.Arn)) }

/-- The record expected for a listed rule whose detail call answers
`detail`: tag set and targets are the answers', and empty if the call
fails. -/
def ruleResource (region : String) (detail : Option String → DescribeRuleOutput)
    (tags : String → Except Err ListTagsForResourceOutput)
    (targets : Option String → Except Err ListTargetsByRuleOutput)
    (listRule : Rule) : Resource :=
  { Region := region, ARN := (detail listRule.Name).Arn, Name := (detail listRule.Name).Name,
    Description := Description.EventBridgeRuleDescription (detail listRule.Name)
      (tagsOrEmpty (tags (detail listRule.Name).Arn))
      (targetsOrEmpty (targets listRule.Name)) }

/-- The records expected for the listed buses of a sequence of pages, in
page order and, within a page, in listing order. -/
def busResources (region : String) (tags : String → Except Err ListTagsForResourceOutput)
    (pages : List ListEventBusesOutput) : List Resource :=
  pages.flatMap (fun p => p.EventBuses.map (busResource region tags))

/-- The records expected for the listed rules of a sequence of pages, in
page order and, within a page, in listing order. -/
def ruleResources (region : String) (detail : Option String → DescribeRuleOutput)
    (tags : String → Except Err ListTagsForResourceOutput)
    (targets : Option String → Except Err ListTargetsByRuleOutput)
    (pages : List ListRulesOutput) : List Resource :=
  pages.flatMap (fun p => p.Rules.map (ruleResource region detail tags targets))

/-- The two codes that `EventBridgeRule` tests for after its tag call and its
targets call. -/
def notFoundOrValidation (err : Err) : Bool :=
  isErr err "ResourceNotFoundException" || isErr err "ValidationException"

/-- The stream sender, if there is one, never returns an error. -/
def NeverFails {τ : Type} (stream : Option (StreamSender τ)) : Prop :=
  ∀ send, stream = some send → ∀ r t, (send r t).1 = none

/-- The part of the emitted records `rs` that comes back in the returned
list: all of them in batch mode, none in streaming mode. -/
def returnedPart {τ : Type} (stream : Option (StreamSender τ)) (rs : List Resource) :
    List Resource :=
  match stream with
  | none => rs
  | some _ => []

/-- The part of the emitted records `rs` that goes to the stream sender: all
of them in streaming mode, none in batch mode. -/
def deliveredPart {τ : Type} (stream : Option (StreamSender τ)) (rs : List Resource) :
    List Resource :=
  match stream with
  | none => []
  | some _ => rs

/-- What a piece of a run added to the trace is harmless throughout, or it
ends with the only fatal event in it and the piece gave up with that event's
error. -/
def Aborts (added : List Event) (gaveUp : Err → Prop) : Prop :=
  (∀ ev ∈ added, ev.fatal = none) ∨
    ∃ pre ev e, added = pre ++ [ev] ∧ (∀ x ∈ pre, x.fatal = none) ∧
      ev.fatal = some e ∧ gaveUp e

/-- The error with which an event makes `EventBridgeRule` give up at once: a
failed delivery, a failed `ListRules` or `DescribeRule` call whatever its
code, or a failed tag or targets call whose code is neither
`ResourceNotFoundException` nor `ValidationException`. -/
def Event.ruleFatal : Event → Option Err
  | Event.deliver _ err => err
  | Event.call (Request.ListRules _) err => err
  | Event.call (Request.DescribeRule _) err => err
  | Event.call (Request.ListTagsForResource _) (some err) =>
    if notFoundOrValidation err then none else some err
  | Event.call (Request.ListTargetsByRule _) (some err) =>
    if notFoundOrValidation err then none else some err
  | Event.call _ _ => none

/-- What a piece of a run of `EventBridgeRule` added to the trace is harmless
for it throughout, or it ends with the only event in it that is fatal for
`EventBridgeRule` and the piece gave up with that event's error. -/
def RuleAborts (added : List Event) (gaveUp : Err → Prop) : Prop :=
  (∀ ev ∈ added, ev.ruleFatal = none) ∨
    ∃ pre ev e, added = pre ++ [ev] ∧ (∀ x ∈ pre, x.ruleFatal = none) ∧
      ev.ruleFatal = some e ∧ gaveUp e

/-- A streaming run from `ws` to `ws1` and a batch run from `wb` to `wb1` went
in step: the streaming run added the events `A`, the batch run added the
provider calls among them, and the provider ended in the same state. -/
def InStep {σ τ : Type} (ws wb ws1 wb1 : World σ τ) (A : List Event) : Prop :=
  ws1.trace = ws.trace ++ A ∧ wb1.trace = wb.trace ++ calls A ∧
    ws1.upstream = wb1.upstream

/-! ## Concrete inputs -/

def resourceNotFound : Err :=
  { code := some "ResourceNotFoundException", message := "resource not found" }

def invalidParameter : Err :=
  { code := some "InvalidParameter", message := "invalid parameter" }

def validationFailed : Err :=
  { code := some "ValidationException", message := "validation failed" }

def accessDenied : Err :=
  { code := some "AccessDeniedException", message := "access denied" }

/-- An error of the stream sender; it carries no provider code. -/
def sinkClosed : Err :=
  { code := none, message := "sink closed" }

def busOf (n : String) : EventBus :=
  { Arn := "arn:x:" ++ n, Name := "bus-" ++ n, Policy := none }

def ruleOf (n : String) : Rule :=
  { Arn := some ("arn:x:" ++ n), Name := some n }

def detailOf (name : Option String) : DescribeRuleOutput :=
  { Arn := "arn:x:" ++ name.getD "", Name := name.getD "", EventPattern := none }

/-- The end-to-end scenario of the spec, for buses and for rules: page 1 holds
one item with ARN `arn:x:1` and a cursor, page 2 holds no items and no
cursor, and every tag call fails with `ResourceNotFoundException`. -/
def scenario : Script :=
  { eventBuses := [.ok { EventBuses := [busOf "1"], NextToken := some "A" },
      .ok { EventBuses := [], NextToken := none }],
    rules := [.ok { Rules := [ruleOf "1"], NextToken := some "A" },
      .ok { Rules := [], NextToken := none }],
    tags := fun _ => .error resourceNotFound,
    describe := fun name => .ok (detailOf name),
    targets := fun _ => .ok { Targets := [{ Id := "t", Arn := "arn:x:target" }] } }

/-- Three pages of one item each with the cursors `A`, `B`, absent; every
per-item call succeeds. -/
def threePages : Script :=
  { eventBuses := [.ok { EventBuses := [busOf "1"], NextToken := some "A" },
      .ok { EventBuses := [busOf "2"], NextToken := some "B" },
      .ok { EventBuses := [busOf "3"], NextToken := none }],
    rules := [.ok { Rules := [ruleOf "1"], NextToken := some "A" },
      .ok { Rules := [ruleOf "2"], NextToken := some "B" },
      .ok { Rules := [ruleOf "3"], NextToken := none }],
    tags := fun _ => .ok { Tags := [] },
    describe := fun name => .ok (detailOf name),
    targets := fun _ => .ok { Targets := [] } }

/-- The first list call fails with `err`. -/
def firstPageFails (err : Err) : Script :=
  { threePages with eventBuses := [.error err], rules := [.error err] }

/-- Page 1 holds one item and the cursor `A`; the list call for page 2 fails
with `err`. -/
def secondPageFails (err : Err) : Script :=
  { threePages with
    eventBuses := [.ok { EventBuses := [busOf "1"], NextToken := some "A" }, .error err],
    rules := [.ok { Rules := [ruleOf "1"], NextToken := some "A" }, .error err] }

/-- The scenario with every tag call failing with `ValidationException` and
every targets call failing with `ResourceNotFoundException`. -/
def bothEnrichmentsFail : Script :=
  { scenario with
    tags := fun _ => .error validationFailed,
    targets := fun _ => .error resourceNotFound }

end Describer

/-! ## GetConfig -/

namespace Provider

open Describer (Err)

/-- The part of `aws.Config` that `GetConfig` reads or writes, `Region`, and
the remainder as one field. -/
structure Config (ρ : Type) where
  Region : String
  rest : ρ
deriving DecidableEq, Repr

/-- The value `sts.NewFromConfig(cfg)`: an STS client remembers the
configuration it was built from. -/
structure StsClient (ρ : Type) where
  config : Config ρ
deriving DecidableEq, Repr

/-- The options struct `stscreds.AssumeRoleOptions` of the SDK. -/
structure AssumeRoleOptions (ρ : Type) where
  Client : StsClient ρ
  RoleARN : String
  ExternalID : Option String
deriving DecidableEq, Repr

inductive CredentialsProvider (ρ : Type) where
  | StaticCredentialsProvider (key secret session : String)
  | AssumeRoleProvider (options : AssumeRoleOptions ρ)
deriving DecidableEq, Repr

inductive LoadOption (ρ : Type) where
  | WithCredentialsProvider (provider : CredentialsProvider ρ)
deriving DecidableEq, Repr

/-- The SDK constructor `stscreds.NewAssumeRoleProvider(client, roleARN,
optFns...)`: it fills the options with the client and the role and then
applies the option functions in order. -/
def NewAssumeRoleProvider {ρ : Type} (client : StsClient ρ) (roleARN : String)
    (optFns : List (AssumeRoleOptions ρ → AssumeRoleOptions ρ)) :
    CredentialsProvider ρ :=
  CredentialsProvider.AssumeRoleProvider
    (optFns.foldl (fun o fn => fn o)
      { Client := client, RoleARN := roleARN, ExternalID := none })

/-- The SDK loader `config.LoadDefaultConfig(ctx, opts...)`: it answers from
the ambient environment `ε` (process environment, shared files, instance
identity) and may move it on. -/
abbrev Loader (ε ρ : Type) := List (LoadOption ρ) → ε → Except Err (Config ρ) × ε

/-- The ambient environment and the option lists the loader has been called
with so far. -/
structure LoadWorld (ε ρ : Type) where
  env : ε
  loads : List (List (LoadOption ρ))

/-- One call of the loader, logged. -/
def LoadDefaultConfig {ε ρ : Type} (loader : Loader ε ρ) (opts : List (LoadOption ρ))
    (w : LoadWorld ε ρ) : Except Err (Config ρ) × LoadWorld ε ρ :=
  ((loader opts w.env).1,
    { env := (loader opts w.env).2, loads := w.loads ++ [opts] })

/-- An error built by `fmt.Errorf("...: %w", err)`. -/
structure WrappedErr where
  message : String
  cause : Err
deriving DecidableEq, Repr

/-- The option list `opts` that `GetConfig` builds before the first load
(config.go 34-38): the static credentials, if an access key is given. -/
def GetConfig.opts {ρ : Type} (awsAccessKey awsSecretKey awsSessionToken : String) :
    List (LoadOption ρ) :=
  if awsAccessKey ≠ "" then
    [] ++ [LoadOption.WithCredentialsProvider
      (CredentialsProvider.StaticCredentialsProvider awsAccessKey awsSecretKey
        awsSessionToken)]
  else []

/-- The value of `externalId` after config.go 48-50:
`if externalId != nil && *externalId == "" { externalId = nil }`. -/
def GetConfig.externalId (externalId : Option String) : Option String :=
  match externalId with
  | some s => if s = "" then none else some s
  | none => none

/-- The function `GetConfig` (config.go 33-71). -/
def GetConfig {ε ρ : Type} (loader : Loader ε ρ)
    (awsAccessKey awsSecretKey awsSessionToken assumeRoleArn : String)
    (externalId : Option String) (w : LoadWorld ε ρ) :
    Except WrappedErr (Config ρ) × LoadWorld ε ρ :=
  match LoadDefaultConfig loader
      (GetConfig.opts awsAccessKey awsSecretKey awsSessionToken) w with
  | (.error err, w1) =>
    (.error { message := "failed to load AWS config: " ++ err.message, cause := err }, w1)
  | (.ok cfg0, w1) =>
    let cfg : Config ρ := if cfg0.Region = "" then { cfg0 with Region := "us-east-1" } else cfg0
    let externalId : Option String := GetConfig.externalId externalId
    if assumeRoleArn ≠ "" then
      match LoadDefaultConfig loader
          [LoadOption.WithCredentialsProvider
            (NewAssumeRoleProvider (StsClient.mk cfg) assumeRoleArn
              [fun o => { o with ExternalID := externalId }])] w1 with
      | (.error err, w2) =>
        (.error { message := "failed to assume role: " ++ err.message, cause := err }, w2)
      | (.ok cfg2, w2) => (.ok cfg2, w2)
    else
      (.ok cfg, w1)

/-- The external IDs of the assume-role providers found in the option lists
the loader was called with, in order. -/
def externalIDs {ρ : Type} : List (List (LoadOption ρ)) → List (Option String)
  | [] => []
  | opts :: rest =>
    opts.filterMap (fun o =>
      match o with
      | LoadOption.WithCredentialsProvider (CredentialsProvider.AssumeRoleProvider options) =>
        some options.ExternalID
      | _ => none) ++ externalIDs rest

/-- The world `GetConfig` is started in: no load has happened yet. -/
def LoadWorld.init {ε ρ : Type} (env : ε) : LoadWorld ε ρ :=
  { env := env, loads := [] }

/-- An ambient environment in which no region is configured: whatever the
options, the loader succeeds with an empty `Region`. -/
def noRegionLoader : Loader Unit Unit :=
  fun _ _ => (.ok { Region := "", rest := () }, ())

end Provider

/-! ## Properties of the enumerators -/

namespace Describer

variable {σ τ : Type}

theorem Aborts.nil (P : Err → Prop) : Aborts [] P :=
  Or.inl (by simp)

theorem Aborts.single {ev : Event} {P : Err → Prop}
    (h : ∀ e, ev.fatal = some e → P e) : Aborts [ev] P := by
  cases hf : ev.fatal with
  | none => exact Or.inl (by simpa using hf)
  | some e => exact Or.inr ⟨[], ev, e, by simp, by simp, hf, h e hf⟩

theorem Aborts.cons {ev : Event} {rest : List Event} {P : Err → Prop}
    (hev : ev.fatal = none) (h : Aborts rest P) : Aborts (ev :: rest) P := by
  rcases h with h | ⟨pre, last, e, hrest, hpre, hlast, hP⟩
  · left
    intro x hx
    rcases List.mem_cons.mp hx with rfl | hx
    · exact hev
    · exact h x hx
  · right
    refine ⟨ev :: pre, last, e, by simp [hrest], ?_, hlast, hP⟩
    intro x hx
    rcases List.mem_cons.mp hx with rfl | hx
    · exact hev
    · exact hpre x hx

theorem Aborts.mono {added : List Event} {P Q : Err → Prop}
    (hPQ : ∀ e, P e → Q e) (h : Aborts added P) : Aborts added Q := by
  rcases h with h | ⟨pre, last, e, hrest, hpre, hlast, hP⟩
  · exact Or.inl h
  · exact Or.inr ⟨pre, last, e, hrest, hpre, hlast, hPQ e hP⟩

theorem fatal_call_eq {req : Request} {err e : Err}
    (h : (Event.call req (some err)).fatal = some e) : e = err := by
  unfold Event.fatal at h
  split at h <;> simp_all

theorem bus_tagsOutput_error {res : Except Err ListTagsForResourceOutput} {err : Err}
    (h : EventBridgeBus.tagsOutput res = .error err) :
    res = .error err ∧ absenceClass err = false := by
  unfold EventBridgeBus.tagsOutput at h
  cases res with
  | ok out => simp at h
  | error e =>
    simp only at h
    split at h
    · rename_i hc
      injection h with h
      subst h
      refine ⟨rfl, ?_⟩
      unfold absenceClass
      simpa using hc
    · simp at h

theorem bus_tagsOutput_ok {res : Except Err ListTagsForResourceOutput}
    {out : ListTagsForResourceOutput} (req : Request)
    (h : EventBridgeBus.tagsOutput res = .ok out) :
    (Event.call req (errOf res)).fatal = none := by
  unfold EventBridgeBus.tagsOutput at h
  cases res with
  | ok o => rfl
  | error e =>
    simp only at h
    split at h
    · simp at h
    · rename_i hc
      have : absenceClass e = true := by
        unfold absenceClass
        cases h1 : isErr e "InvalidParameter" <;>
          cases h2 : isErr e "ResourceNotFoundException" <;>
          cases h3 : isErr e "ValidationException" <;> simp_all
      simp [errOf, Event.fatal, this]

theorem Aborts.harmless {added : List Event}
    (h : Aborts added (fun x => (none : Option Err) = some x)) :
    ∀ ev ∈ added, ev.fatal = none := by
  rcases h with h | ⟨_, _, _, _, _, _, hP⟩
  · exact h
  · simp at hP

theorem Aborts.append {a b : List Event} {P : Err → Prop}
    (ha : ∀ ev ∈ a, ev.fatal = none) (hb : Aborts b P) : Aborts (a ++ b) P := by
  induction a with
  | nil => simpa using hb
  | cons x xs ih =>
    exact Aborts.cons (ha x (by simp)) (ih (fun ev hev => ha ev (by simp [hev])))

theorem emit_aborts (stream : Option (StreamSender τ)) (r : Resource)
    (values : List Resource) (w : World σ τ) :
    ∃ added, (emit stream r values w).2.2.trace = w.trace ++ added ∧
      Aborts added (fun x => (emit stream r values w).1 = some x) := by
  cases stream with
  | none => exact ⟨[], by simp [emit], Aborts.nil _⟩
  | some send =>
    refine ⟨[Event.deliver r (send r w.sink).1], ?_, ?_⟩
    · simp only [emit, deliver]
      cases (send r w.sink).1 <;> rfl
    · apply Aborts.single
      intro e he
      simp only [emit, deliver]
      simp only [Event.fatal] at he
      rw [he]

theorem EventBridgeBus.buses_aborts (client : Client σ) (stream : Option (StreamSender τ))
    (region : String) (items : List EventBus) :
    ∀ (values : List Resource) (w : World σ τ),
      ∃ added, (EventBridgeBus.buses client stream region items values w).2.2.trace
          = w.trace ++ added ∧
        Aborts added
          (fun x => (EventBridgeBus.buses client stream region items values w).1 = some x) := by
  induction items with
  | nil => intro values w; exact ⟨[], by simp [EventBridgeBus.buses], Aborts.nil _⟩
  | cons bus rest ih =>
    intro values w
    simp only [EventBridgeBus.buses, invoke]
    cases htag : EventBridgeBus.tagsOutput (client.ListTagsForResource bus.Arn w.upstream).1 with
    | error err =>
      refine ⟨[_], rfl, Aborts.single ?_⟩
      intro e he
      rw [(bus_tagsOutput_error htag).1] at he
      rw [fatal_call_eq he]
    | ok tagsOutput =>
      simp only
      have hcall := bus_tagsOutput_ok (Request.ListTagsForResource bus.Arn) htag
      generalize hw1 : (World.mk (client.ListTagsForResource bus.Arn w.upstream).2 w.sink
        (w.trace ++ [Event.call (Request.ListTagsForResource bus.Arn)
          (errOf (client.ListTagsForResource bus.Arn w.upstream).1)])) = w1
      have hw1t : w1.trace = w.trace ++ [Event.call (Request.ListTagsForResource bus.Arn)
          (errOf (client.ListTagsForResource bus.Arn w.upstream).1)] := by
        rw [← hw1]
      obtain ⟨addedE, htE, hE⟩ := emit_aborts stream
        { Region := region, ARN := bus.Arn, Name := bus.Name,
          Description := Description.EventBridgeBusDescription bus tagsOutput.Tags } values w1
      rcases hem : emit stream
        { Region := region, ARN := bus.Arn, Name := bus.Name,
          Description := Description.EventBridgeBusDescription bus tagsOutput.Tags } values w1
        with ⟨_ | err, values1, w2⟩
      · rw [hem] at htE hE
        simp only at htE hE ⊢
        obtain ⟨addedR, htR, hR⟩ := ih values1 w2
        refine ⟨_ :: (addedE ++ addedR), ?_, Aborts.cons hcall (Aborts.append hE.harmless hR)⟩
        rw [htR, htE, hw1t]
        simp
      · rw [hem] at htE hE
        simp only at htE hE ⊢
        refine ⟨_ :: addedE, ?_, Aborts.cons hcall hE⟩
        rw [htE, hw1t]
        simp

theorem EventBridgeBus.loop_aborts (client : Client σ) (stream : Option (StreamSender τ))
    (region : String) (fuel : Nat) :
    ∀ (input : ListEventBusesInput) (values : List Resource) (w : World σ τ),
      ∃ added, (EventBridgeBus.loop client stream region fuel input values w).2.trace
          = w.trace ++ added ∧
        Aborts added
          (fun x => (EventBridgeBus.loop client stream region fuel input values w).1
            = some ([], some x)) := by
  induction fuel with
  | zero => intro input values w; exact ⟨[], by simp [EventBridgeBus.loop], Aborts.nil _⟩
  | succ fuel ih =>
    intro input values w
    simp only [EventBridgeBus.loop, invoke]
    cases hres : (client.ListEventBuses input w.upstream).1 with
    | error err =>
      simp only
      refine ⟨[Event.call (Request.ListEventBuses input) (some err)], ?_, Aborts.single ?_⟩
      · split <;> simp [errOf]
      · intro e he
        have hee := fatal_call_eq he
        subst hee
        have hab : absenceClass e = false := by
          simp only [Event.fatal] at he
          split at he
          · simp at he
          · simpa using ‹¬ absenceClass e = true›
        unfold absenceClass at hab
        simp [hab]
    | ok response =>
      simp only
      generalize hw1 : (World.mk (client.ListEventBuses input w.upstream).2 w.sink
        (w.trace ++ [Event.call (Request.ListEventBuses input)
          (errOf (Except.ok response : Except Err ListEventBusesOutput))])) = w1
      have hw1t : w1.trace = w.trace ++ [Event.call (Request.ListEventBuses input) none] := by
        rw [← hw1]; rfl
      obtain ⟨addedB, htB, hB⟩ :=
        EventBridgeBus.buses_aborts client stream region response.EventBuses values w1
      rcases hb : EventBridgeBus.buses client stream region response.EventBuses values w1
        with ⟨_ | err, values1, w2⟩
      · rw [hb] at htB hB
        simp only at htB hB ⊢
        cases response.NextToken with
        | none =>
          simp only
          refine ⟨Event.call (Request.ListEventBuses input) none :: addedB, ?_,
            Aborts.cons rfl (Or.inl hB.harmless)⟩
          rw [htB, hw1t]; simp
        | some tok =>
          simp only
          obtain ⟨addedR, htR, hR⟩ := ih { input with NextToken := some tok } values1 w2
          refine ⟨Event.call (Request.ListEventBuses input) none :: (addedB ++ addedR), ?_,
            Aborts.cons rfl (Aborts.append hB.harmless hR)⟩
          rw [htR, htB, hw1t]; simp
      · rw [hb] at htB hB
        simp only at htB hB ⊢
        refine ⟨Event.call (Request.ListEventBuses input) none :: addedB, ?_,
          Aborts.cons rfl (hB.mono ?_)⟩
        · rw [htB, hw1t]; simp
        · intro e he
          simp only [Option.some.injEq] at he
          rw [he]

theorem invoke_trace {α : Type} {op : σ → Except Err α × σ} {req : Request}
    {w w1 : World σ τ} {res : Except Err α} (h : invoke op req w = (res, w1)) :
    w1.trace = w.trace ++ [Event.call req (errOf res)] := by
  unfold invoke at h
  injection h with h1 h2
  subst h1 h2
  rfl

theorem rule_tagsOutput_error {res : Except Err ListTagsForResourceOutput} {err : Err}
    (h : EventBridgeRule.tagsOutput res = .error err) : res = .error err := by
  unfold EventBridgeRule.tagsOutput at h
  cases res with
  | ok out => simp at h
  | error e =>
    simp only at h
    split at h
    · injection h with h; rw [h]
    · simp at h

theorem rule_tagsOutput_ok {res : Except Err ListTagsForResourceOutput}
    {out : ListTagsForResourceOutput} (req : Request)
    (h : EventBridgeRule.tagsOutput res = .ok out) :
    (Event.call req (errOf res)).fatal = none := by
  unfold EventBridgeRule.tagsOutput at h
  cases res with
  | ok o => rfl
  | error e =>
    simp only at h
    split at h
    · simp at h
    · rename_i hc
      have : absenceClass e = true := by
        unfold absenceClass
        cases h2 : isErr e "ResourceNotFoundException" <;>
          cases h3 : isErr e "ValidationException" <;> simp_all
      simp [errOf, Event.fatal, this]

theorem rule_targets_error {res : Except Err ListTargetsByRuleOutput} {err : Err}
    (h : EventBridgeRule.targets res = .error err) : res = .error err := by
  unfold EventBridgeRule.targets at h
  cases res with
  | ok out => simp at h
  | error e =>
    simp only at h
    split at h
    · injection h with h; rw [h]
    · simp at h

theorem rule_targets_ok {res : Except Err ListTargetsByRuleOutput}
    {out : ListTargetsByRuleOutput} (req : Request)
    (h : EventBridgeRule.targets res = .ok out) :
    (Event.call req (errOf res)).fatal = none := by
  unfold EventBridgeRule.targets at h
  cases res with
  | ok o => rfl
  | error e =>
    simp only at h
    split at h
    · simp at h
    · rename_i hc
      have : absenceClass e = true := by
        unfold absenceClass
        cases h2 : isErr e "ResourceNotFoundException" <;>
          cases h3 : isErr e "ValidationException" <;> simp_all
      simp [errOf, Event.fatal, this]

theorem EventBridgeRule.rules_aborts (client : Client σ) (stream : Option (StreamSender τ))
    (region : String) (items : List Rule) :
    ∀ (values : List Resource) (w : World σ τ),
      ∃ added, (EventBridgeRule.rules client stream region items values w).2.2.trace
          = w.trace ++ added ∧
        Aborts added
          (fun x => (EventBridgeRule.rules client stream region items values w).1 = some x) := by
  induction items with
  | nil => intro values w; exact ⟨[], by simp [EventBridgeRule.rules], Aborts.nil _⟩
  | cons listRule rest ih =>
    intro values w
    simp only [EventBridgeRule.rules]
    rcases hd : invoke (client.DescribeRule listRule.Name)
      (Request.DescribeRule listRule.Name) w with ⟨_ | rule, w1⟩
    · -- the detail call failed: the closure returns its error
      rename_i err
      refine ⟨[_], invoke_trace hd, Aborts.single ?_⟩
      intro e he
      rw [fatal_call_eq he]
    · have h1 : w1.trace = w.trace ++ [Event.call (Request.DescribeRule listRule.Name) none] :=
        invoke_trace hd
      have hc1 : (Event.call (Request.DescribeRule listRule.Name) none).fatal = none := rfl
      simp only
      rcases ht : invoke (client.ListTagsForResource rule.Arn)
        (Request.ListTagsForResource rule.Arn) w1 with ⟨tagsRes, w2⟩
      have h2 := invoke_trace ht
      simp only
      cases htag : EventBridgeRule.tagsOutput tagsRes with
      | error err =>
        simp only
        refine ⟨[Event.call (Request.DescribeRule listRule.Name) none,
            Event.call (Request.ListTagsForResource rule.Arn) (errOf tagsRes)],
          by rw [h2, h1]; simp, Aborts.cons hc1 (Aborts.single ?_)⟩
        intro e he
        rw [rule_tagsOutput_error htag] at he
        rw [fatal_call_eq he]
      | ok tagsOutput =>
        have hc2 := rule_tagsOutput_ok (Request.ListTagsForResource rule.Arn) htag
        simp only
        rcases hg : invoke (client.ListTargetsByRule listRule.Name)
          (Request.ListTargetsByRule listRule.Name) w2 with ⟨targetsRes, w3⟩
        have h3 := invoke_trace hg
        simp only
        cases htar : EventBridgeRule.targets targetsRes with
        | error err =>
          simp only
          refine ⟨[Event.call (Request.DescribeRule listRule.Name) none,
              Event.call (Request.ListTagsForResource rule.Arn) (errOf tagsRes),
              Event.call (Request.ListTargetsByRule listRule.Name) (errOf targetsRes)],
            by rw [h3, h2, h1]; simp,
            Aborts.cons hc1 (Aborts.cons hc2 (Aborts.single ?_))⟩
          intro e he
          rw [rule_targets_error htar] at he
          rw [fatal_call_eq he]
        | ok targets =>
          have hc3 := rule_targets_ok (Request.ListTargetsByRule listRule.Name) htar
          simp only
          obtain ⟨addedE, htE, hE⟩ := emit_aborts stream
            { Region := region, ARN := rule.Arn, Name := rule.Name,
              Description := Description.EventBridgeRuleDescription rule
                tagsOutput.Tags targets.Targets } values w3
          rcases hem : emit stream
            { Region := region, ARN := rule.Arn, Name := rule.Name,
              Description := Description.EventBridgeRuleDescription rule
                tagsOutput.Tags targets.Targets } values w3
            with ⟨_ | err, values1, w4⟩
          · rw [hem] at htE hE
            simp only at htE hE ⊢
            obtain ⟨addedR, htR, hR⟩ := ih values1 w4
            refine ⟨Event.call (Request.DescribeRule listRule.Name) none ::
                Event.call (Request.ListTagsForResource rule.Arn) (errOf tagsRes) ::
                Event.call (Request.ListTargetsByRule listRule.Name) (errOf targetsRes) ::
                (addedE ++ addedR), ?_,
              Aborts.cons hc1 (Aborts.cons hc2 (Aborts.cons hc3
                (Aborts.append hE.harmless hR)))⟩
            rw [htR, htE, h3, h2, h1]
            simp
          · rw [hem] at htE hE
            simp only at htE hE ⊢
            refine ⟨Event.call (Request.DescribeRule listRule.Name) none ::
                Event.call (Request.ListTagsForResource rule.Arn) (errOf tagsRes) ::
                Event.call (Request.ListTargetsByRule listRule.Name) (errOf targetsRes) ::
                addedE, ?_,
              Aborts.cons hc1 (Aborts.cons hc2 (Aborts.cons hc3 hE))⟩
            rw [htE, h3, h2, h1]
            simp

theorem EventBridgeRule.fn_aborts (client : Client σ) (stream : Option (StreamSender τ))
    (region : String) (prevToken : Option String) (s : List Resource × World σ τ) :
    ∃ added, (EventBridgeRule.fn client stream region prevToken s).2.2.trace
        = s.2.trace ++ added ∧
      Aborts added
        (fun x => (EventBridgeRule.fn client stream region prevToken s).1.2 = some x) := by
  simp only [EventBridgeRule.fn]
  rcases hl : invoke (client.ListRules prevToken) (Request.ListRules prevToken) s.2
    with ⟨_ | out, w1⟩
  · rename_i err
    refine ⟨[_], invoke_trace hl, Aborts.single ?_⟩
    intro e he
    rw [fatal_call_eq he]
  · have h1 : w1.trace = s.2.trace ++ [Event.call (Request.ListRules prevToken) none] :=
      invoke_trace hl
    have hc1 : (Event.call (Request.ListRules prevToken) none).fatal = none := rfl
    simp only
    obtain ⟨addedR, htR, hR⟩ :=
      EventBridgeRule.rules_aborts client stream region out.Rules s.1 w1
    rcases hr : EventBridgeRule.rules client stream region out.Rules s.1 w1
      with ⟨_ | err, values1, w2⟩
    · rw [hr] at htR hR
      simp only at htR hR ⊢
      refine ⟨Event.call (Request.ListRules prevToken) none :: addedR, ?_,
        Aborts.cons hc1 (Or.inl hR.harmless)⟩
      rw [htR, h1]; simp
    · rw [hr] at htR hR
      simp only at htR hR ⊢
      refine ⟨Event.call (Request.ListRules prevToken) none :: addedR, ?_,
        Aborts.cons hc1 hR⟩
      rw [htR, h1]; simp

theorem EventBridgeRule.paginate_aborts (client : Client σ)
    (stream : Option (StreamSender τ)) (region : String) (fuel : Nat) :
    ∀ (prevToken : Option String) (s : List Resource × World σ τ),
      ∃ added,
        (PaginateRetrieveAll.loop (EventBridgeRule.fn client stream region) fuel prevToken
          s).2.2.trace = s.2.trace ++ added ∧
        Aborts added
          (fun x => (PaginateRetrieveAll.loop (EventBridgeRule.fn client stream region) fuel
            prevToken s).1 = some (some x)) := by
  induction fuel with
  | zero => intro prevToken s; exact ⟨[], by simp [PaginateRetrieveAll.loop], Aborts.nil _⟩
  | succ fuel ih =>
    intro prevToken s
    simp only [PaginateRetrieveAll.loop]
    obtain ⟨addedF, htF, hF⟩ := EventBridgeRule.fn_aborts client stream region prevToken s
    rcases hf : EventBridgeRule.fn client stream region prevToken s
      with ⟨⟨tok, _ | err⟩, s1⟩
    · rw [hf] at htF hF
      simp only at htF hF
      cases tok with
      | none =>
        simp only
        exact ⟨addedF, htF, Or.inl hF.harmless⟩
      | some nextToken =>
        simp only
        obtain ⟨addedR, htR, hR⟩ := ih (some nextToken) s1
        refine ⟨addedF ++ addedR, ?_, Aborts.append hF.harmless hR⟩
        rw [htR, htF]; simp
    · rw [hf] at htF hF
      simp only at htF hF ⊢
      refine ⟨addedF, htF, hF.mono ?_⟩
      intro e he
      simp only [Option.some.injEq] at he
      rw [he]

theorem EventBridgeRule.aborts (client : Client σ) (stream : Option (StreamSender τ))
    (region : String) (fuel : Nat) (w : World σ τ) :
    ∃ added, (EventBridgeRule client stream region fuel w).2.trace = w.trace ++ added ∧
      Aborts added
        (fun x => (EventBridgeRule client stream region fuel w).1 = some ([], some x)) := by
  obtain ⟨added, ht, hA⟩ :=
    EventBridgeRule.paginate_aborts client stream region fuel none ([], w)
  simp only [EventBridgeRule, PaginateRetrieveAll]
  rcases hp : PaginateRetrieveAll.loop (EventBridgeRule.fn client stream region) fuel none
    ([], w) with ⟨_ | _ | err, s⟩
  · rw [hp] at ht hA
    exact ⟨added, ht, hA.mono (by intro e he; simp at he)⟩
  · rw [hp] at ht hA
    exact ⟨added, ht, hA.mono (by intro e he; simp at he)⟩
  · rw [hp] at ht hA
    refine ⟨added, ht, hA.mono ?_⟩
    intro e he
    simp only [Option.some.injEq] at he
    simp [he]

theorem Enumerator.run_aborts (which : Enumerator) (client : Client σ)
    (stream : Option (StreamSender τ)) (region : String) (fuel : Nat) (w : World σ τ) :
    ∃ added, (which.run client stream region fuel w).2.trace = w.trace ++ added ∧
      Aborts added
        (fun x => (which.run client stream region fuel w).1 = some ([], some x)) := by
  cases which with
  | EventBridgeBus =>
    exact EventBridgeBus.loop_aborts client stream region fuel _ [] w
  | EventBridgeRule => exact EventBridgeRule.aborts client stream region fuel w

theorem deliveries_append (a b : List Event) :
    deliveries (a ++ b) = deliveries a ++ deliveries b := by
  induction a with
  | nil => rfl
  | cons x xs ih =>
    cases x with
    | call req err => simpa [deliveries] using ih
    | deliver r err => simpa [deliveries] using ih

theorem last_fatal_split {before after pre : List Event} {d last : Event}
    (h : before ++ d :: after = pre ++ [last]) (hpre : ∀ x ∈ pre, x.fatal = none)
    (hd : d.fatal ≠ none) : after = [] ∧ before = pre ∧ d = last := by
  rcases List.eq_nil_or_concat after with hnil | ⟨init, x, hcat⟩
  · subst hnil
    have := List.append_inj' h rfl
    simp only [List.cons.injEq, and_true] at this
    exact ⟨rfl, this.1, this.2⟩
  · exfalso
    subst hcat
    have h2 : (before ++ d :: init) ++ [x] = pre ++ [last] := by simpa using h
    have := (List.append_inj' h2 rfl).1
    exact hd (hpre d (by rw [← this]; simp))

/-- Claim C5.  For either enumerator, in batch or in streaming mode and for
every provider behaviour: if any provider call of the run (the primary list
call or a per-item call) failed with an error whose code is outside the
absence class (`InvalidParameter`, `ResourceNotFoundException`,
`ValidationException`), then the enumerator has returned, with no items and
with exactly that error. -/
theorem fatal_upstream_error_is_returned (which : Enumerator) (client : Client σ)
    (stream : Option (StreamSender τ)) (region : String) (fuel : Nat)
    (upstream : σ) (sink : τ) (req : Request) (err : Err)
    (hcall : Event.call req (some err)
      ∈ (which.run client stream region fuel (World.init upstream sink)).2.trace)
    (hcode : absenceClass err = false) :
    (which.run client stream region fuel (World.init upstream sink)).1
      = some ([], some err) := by
  obtain ⟨added, ht, hA⟩ :=
    Enumerator.run_aborts which client stream region fuel (World.init upstream sink)
  rw [ht] at hcall
  simp only [World.init, List.nil_append] at hcall
  have hfatal : (Event.call req (some err)).fatal = some err := by
    simp [Event.fatal, hcode]
  rcases hA with h | ⟨pre, last, e, hadd, hpre, hlast, hres⟩
  · have := h _ hcall
    rw [hfatal] at this
    simp at this
  · rw [hadd] at hcall
    rcases List.mem_append.mp hcall with hin | hin
    · have := hpre _ hin
      rw [hfatal] at this
      simp at this
    · simp only [List.mem_singleton] at hin
      subst hin
      rw [hfatal] at hlast
      injection hlast with hlast
      rw [hlast]
      exact hres

/-- Claim C6.  For either enumerator in streaming mode: if the stream sender
returned the error `err` on a delivery, then that delivery is the last event
of the run (no provider call and no delivery follows it), the stream sender
has been called exactly once more than it had been called before that
delivery, and the enumerator has returned no items together with `err`. -/
theorem sink_error_aborts (which : Enumerator) (client : Client σ)
    (send : StreamSender τ) (region : String) (fuel : Nat)
    (upstream : σ) (sink : τ) (before after : List Event) (resource : Resource) (err : Err)
    (htrace : (which.run client (some send) region fuel (World.init upstream sink)).2.trace
      = before ++ Event.deliver resource (some err) :: after) :
    after = [] ∧
    (deliveries (which.run client (some send) region fuel
      (World.init upstream sink)).2.trace).length = (deliveries before).length + 1 ∧
    (which.run client (some send) region fuel (World.init upstream sink)).1
      = some ([], some err) := by
  obtain ⟨added, ht, hA⟩ :=
    Enumerator.run_aborts which client (some send) region fuel (World.init upstream sink)
  rw [htrace] at ht
  simp only [World.init, List.nil_append] at ht
  have hfatal : (Event.deliver resource (some err)).fatal = some err := rfl
  have hmem : Event.deliver resource (some err) ∈ added := by rw [← ht]; simp
  rcases hA with h | ⟨pre, last, e, hadd, hpre, hlast, hres⟩
  · have := h _ hmem
    rw [hfatal] at this
    simp at this
  · rw [hadd] at ht
    obtain ⟨hafter, hbefore, _⟩ :=
      last_fatal_split ht hpre (by rw [hfatal]; simp)
    subst hafter
    refine ⟨rfl, ?_, ?_⟩
    · rw [htrace, deliveries_append]
      simp [deliveries]
    · have key := (last_fatal_split ht hpre (by rw [hfatal]; simp)).2.2
      rw [← key, hfatal] at hlast
      injection hlast with hlast
      rw [hlast]
      exact hres

theorem listCursors_append (a b : List Event) :
    listCursors (a ++ b) = listCursors a ++ listCursors b := by
  induction a with
  | nil => rfl
  | cons x xs ih =>
    cases x with
    | deliver r err => simpa [listCursors] using ih
    | call req err =>
      cases req <;> simpa [listCursors] using ih

theorem emit_ok {σ : Type} (stream : Option (StreamSender τ)) (hs : NeverFails stream)
    (r : Resource) (values : List Resource) (w : World σ τ) :
    (emit stream r values w).1 = none ∧
    (emit stream r values w).2.1 = values ++ returnedPart stream [r] ∧
    (emit stream r values w).2.2.upstream = w.upstream ∧
    deliveries (emit stream r values w).2.2.trace
      = deliveries w.trace ++ deliveredPart stream [r] ∧
    listCursors (emit stream r values w).2.2.trace = listCursors w.trace := by
  cases stream with
  | none => simp [emit, returnedPart, deliveredPart]
  | some send =>
    have h := hs send rfl r w.sink
    simp only [emit, deliver, h, returnedPart, deliveredPart, deliveries_append,
      listCursors_append]
    simp [deliveries, listCursors]

theorem returnedPart_append (stream : Option (StreamSender τ)) (a b : List Resource) :
    returnedPart stream (a ++ b) = returnedPart stream a ++ returnedPart stream b := by
  cases stream <;> simp [returnedPart]

theorem deliveredPart_append (stream : Option (StreamSender τ)) (a b : List Resource) :
    deliveredPart stream (a ++ b) = deliveredPart stream a ++ deliveredPart stream b := by
  cases stream <;> simp [deliveredPart]

theorem bus_tagsOutput_tolerated (res : Except Err ListTagsForResourceOutput)
    (h : ∀ err, res = .error err → absenceClass err = true) :
    EventBridgeBus.tagsOutput res
      = .ok { Tags := tagsOrEmpty res } := by
  cases res with
  | ok out => rfl
  | error err =>
    have hab := h err rfl
    unfold absenceClass at hab
    have hc : ¬ ((!isErr err "InvalidParameter" && !isErr err "ResourceNotFoundException"
        && !isErr err "ValidationException") = true) := by
      cases h1 : isErr err "InvalidParameter" <;>
        cases h2 : isErr err "ResourceNotFoundException" <;>
        cases h3 : isErr err "ValidationException" <;> simp_all
    simp only [EventBridgeBus.tagsOutput, if_neg hc, tagsOrEmpty]

theorem scripted_ListTagsForResource (arn : String) (s : Script) :
    scripted.ListTagsForResource arn s = (s.tags arn, s) := rfl

theorem scripted_DescribeRule (name : Option String) (s : Script) :
    scripted.DescribeRule name s = (s.describe name, s) := rfl

theorem scripted_ListTargetsByRule (rule : Option String) (s : Script) :
    scripted.ListTargetsByRule rule s = (s.targets rule, s) := rfl

theorem EventBridgeBus.buses_scripted (stream : Option (StreamSender τ))
    (hs : NeverFails stream) (region : String) (items : List EventBus) :
    ∀ (values : List Resource) (w : World Script τ),
      (∀ bus ∈ items, ∀ err, w.upstream.tags bus.Arn = .error err → absenceClass err = true) →
      (EventBridgeBus.buses scripted stream region items values w).1 = none ∧
      (EventBridgeBus.buses scripted stream region items values w).2.1
        = values ++ returnedPart stream (items.map (busResource region w.upstream.tags)) ∧
      (EventBridgeBus.buses scripted stream region items values w).2.2.upstream = w.upstream ∧
      deliveries (EventBridgeBus.buses scripted stream region items values w).2.2.trace
        = deliveries w.trace
          ++ deliveredPart stream (items.map (busResource region w.upstream.tags)) ∧
      listCursors (EventBridgeBus.buses scripted stream region items values w).2.2.trace
        = listCursors w.trace := by
  induction items with
  | nil =>
    intro values w _
    cases stream <;> simp [EventBridgeBus.buses, returnedPart, deliveredPart]
  | cons bus rest ih =>
    intro values w htags
    have htol := bus_tagsOutput_tolerated (w.upstream.tags bus.Arn)
      (htags bus (by simp))
    simp only [EventBridgeBus.buses, invoke, scripted_ListTagsForResource, htol]
    generalize hw1 : (World.mk w.upstream w.sink
      (w.trace ++ [Event.call (Request.ListTagsForResource bus.Arn)
        (errOf (w.upstream.tags bus.Arn))])) = w1
    have hw1u : w1.upstream = w.upstream := by rw [← hw1]
    have hw1d : deliveries w1.trace = deliveries w.trace := by
      rw [← hw1]; simp [deliveries_append, deliveries]
    have hw1c : listCursors w1.trace = listCursors w.trace := by
      rw [← hw1]; simp [listCursors_append, listCursors]
    obtain ⟨he1, he2, he3, he4, he5⟩ := emit_ok stream hs
      { Region := region, ARN := bus.Arn, Name := bus.Name,
        Description := Description.EventBridgeBusDescription bus
          (tagsOrEmpty (w.upstream.tags bus.Arn)) } values w1
    rcases hem : emit stream
      { Region := region, ARN := bus.Arn, Name := bus.Name,
        Description := Description.EventBridgeBusDescription bus
          (tagsOrEmpty (w.upstream.tags bus.Arn)) } values w1 with ⟨e, values1, w2⟩
    rw [hem] at he1 he2 he3 he4 he5
    simp only at he1 he2 he3 he4 he5
    subst he1
    have hu2 : w2.upstream = w.upstream := by rw [he3, hw1u]
    obtain ⟨i1, i2, i3, i4, i5⟩ := ih values1 w2 (by
      intro b hb err herr
      rw [hu2] at herr
      exact htags b (by simp [hb]) err herr)
    refine ⟨i1, ?_, ?_, ?_, ?_⟩
    · rw [i2, he2, hu2]
      simp only [List.map_cons, List.append_assoc]
      rw [← returnedPart_append]
      rfl
    · rw [i3, hu2]
    · rw [i4, he4, hw1d, hu2]
      simp only [List.map_cons, List.append_assoc]
      rw [← deliveredPart_append]
      rfl
    · rw [i5, he5, hw1c]

theorem scripted_ListEventBuses_cons (input : ListEventBusesInput) (s : Script)
    (page : Except Err ListEventBusesOutput) (rest : List (Except Err ListEventBusesOutput))
    (h : s.eventBuses = page :: rest) :
    scripted.ListEventBuses input s = (page, { s with eventBuses := rest }) := by
  simp only [scripted, h]

theorem EventBridgeBus.loop_scripted (stream : Option (StreamSender τ))
    (hs : NeverFails stream) (region : String)
    (tags : String → Except Err ListTagsForResourceOutput)
    (pages : List ListEventBusesOutput) (last : ListEventBusesOutput)
    (hlast : last.NextToken = none) :
    ∀ (fuel : Nat) (input : ListEventBusesInput) (values : List Resource)
      (w : World Script τ),
      w.upstream.tags = tags →
      w.upstream.eventBuses = (pages ++ [last]).map Except.ok →
      (∀ p ∈ pages, p.NextToken ≠ none) →
      (∀ p ∈ pages ++ [last], ∀ bus ∈ p.EventBuses, ∀ err,
        tags bus.Arn = .error err → absenceClass err = true) →
      pages.length < fuel →
      (EventBridgeBus.loop scripted stream region fuel input values w).1
        = some (values ++ returnedPart stream
            ((pages ++ [last]).flatMap (fun p => p.EventBuses.map (busResource region tags))),
          none) ∧
      deliveries (EventBridgeBus.loop scripted stream region fuel input values w).2.trace
        = deliveries w.trace ++ deliveredPart stream
            ((pages ++ [last]).flatMap (fun p => p.EventBuses.map (busResource region tags))) ∧
      listCursors (EventBridgeBus.loop scripted stream region fuel input values w).2.trace
        = listCursors w.trace ++ input.NextToken :: pages.map (fun p => p.NextToken) := by
  induction pages with
  | nil =>
    intro fuel input values w htags hpages _ hitems hfuel
    obtain ⟨fuel, rfl⟩ : ∃ f, fuel = f + 1 := ⟨fuel - 1, by simp at hfuel; omega⟩
    simp only [List.nil_append, List.map_cons, List.map_nil] at hpages
    simp only [EventBridgeBus.loop, invoke,
      scripted_ListEventBuses_cons input w.upstream _ _ hpages]
    generalize hw1 : (World.mk { w.upstream with eventBuses := [] } w.sink
      (w.trace ++ [Event.call (Request.ListEventBuses input)
        (errOf (Except.ok last : Except Err ListEventBusesOutput))])) = w1
    have hw1u : w1.upstream.tags = tags := by rw [← hw1]; exact htags
    have hw1d : deliveries w1.trace = deliveries w.trace := by
      rw [← hw1]; simp [deliveries_append, deliveries]
    have hw1c : listCursors w1.trace = listCursors w.trace ++ [input.NextToken] := by
      rw [← hw1]; simp [listCursors_append, listCursors]
    obtain ⟨b1, b2, b3, b4, b5⟩ :=
      EventBridgeBus.buses_scripted stream hs region last.EventBuses values w1 (by
        intro bus hbus err herr
        rw [hw1u] at herr
        exact hitems last (by simp) bus hbus err herr)
    rcases hb : EventBridgeBus.buses scripted stream region last.EventBuses values w1
      with ⟨e, values1, w2⟩
    rw [hb] at b1 b2 b3 b4 b5
    simp only at b1 b2 b3 b4 b5
    subst b1
    simp only [hlast, List.nil_append, List.flatMap_cons, List.flatMap_nil, List.append_nil,
      List.map_nil]
    rw [hw1u] at b2 b4
    exact ⟨by rw [b2], by rw [b4, hw1d], by rw [b5, hw1c]⟩
  | cons page pages ih =>
    intro fuel input values w htags hpages hcur hitems hfuel
    obtain ⟨fuel, rfl⟩ : ∃ f, fuel = f + 1 := ⟨fuel - 1, by simp at hfuel; omega⟩
    obtain ⟨tok, htok⟩ : ∃ tok, page.NextToken = some tok := by
      have := hcur page (by simp)
      exact Option.ne_none_iff_exists'.mp this
    simp only [List.cons_append, List.map_cons] at hpages
    simp only [EventBridgeBus.loop, invoke,
      scripted_ListEventBuses_cons input w.upstream _ _ hpages]
    generalize hw1 : (World.mk { w.upstream with
        eventBuses := List.map Except.ok (pages ++ [last]) } w.sink
      (w.trace ++ [Event.call (Request.ListEventBuses input)
        (errOf (Except.ok page : Except Err ListEventBusesOutput))])) = w1
    have hw1u : w1.upstream.tags = tags := by rw [← hw1]; exact htags
    have hw1p : w1.upstream.eventBuses = List.map Except.ok (pages ++ [last]) := by
      rw [← hw1]
    have hw1d : deliveries w1.trace = deliveries w.trace := by
      rw [← hw1]; simp [deliveries_append, deliveries]
    have hw1c : listCursors w1.trace = listCursors w.trace ++ [input.NextToken] := by
      rw [← hw1]; simp [listCursors_append, listCursors]
    obtain ⟨b1, b2, b3, b4, b5⟩ :=
      EventBridgeBus.buses_scripted stream hs region page.EventBuses values w1 (by
        intro bus hbus err herr
        rw [hw1u] at herr
        exact hitems page (by simp) bus hbus err herr)
    rcases hb : EventBridgeBus.buses scripted stream region page.EventBuses values w1
      with ⟨e, values1, w2⟩
    rw [hb] at b1 b2 b3 b4 b5
    simp only at b1 b2 b3 b4 b5
    subst b1
    simp only [htok]
    rw [hw1u] at b2 b4
    obtain ⟨i1, i2, i3⟩ := ih fuel { input with NextToken := some tok } values1 w2
      (by rw [b3, hw1u]) (by rw [b3, hw1p])
      (fun p hp => hcur p (by simp [hp]))
      (fun p hp => hitems p (by simp only [List.cons_append, List.mem_cons]; exact Or.inr hp))
      (by simp at hfuel; omega)
    refine ⟨?_, ?_, ?_⟩
    · rw [i1, b2]
      simp [returnedPart_append]
    · rw [i2, b4, hw1d]
      simp [deliveredPart_append]
    · rw [i3, b5, hw1c]
      simp [htok]

theorem rule_tagsOutput_tolerated (res : Except Err ListTagsForResourceOutput)
    (h : ∀ err, res = .error err → notFoundOrValidation err = true) :
    EventBridgeRule.tagsOutput res = .ok { Tags := tagsOrEmpty res } := by
  cases res with
  | ok out => rfl
  | error err =>
    have hab := h err rfl
    unfold notFoundOrValidation at hab
    have hc : ¬ ((!isErr err "ResourceNotFoundException"
        && !isErr err "ValidationException") = true) := by
      cases h2 : isErr err "ResourceNotFoundException" <;>
        cases h3 : isErr err "ValidationException" <;> simp_all
    simp only [EventBridgeRule.tagsOutput, if_neg hc, tagsOrEmpty]

theorem rule_targets_tolerated (res : Except Err ListTargetsByRuleOutput)
    (h : ∀ err, res = .error err → notFoundOrValidation err = true) :
    EventBridgeRule.targets res = .ok { Targets := targetsOrEmpty res } := by
  cases res with
  | ok out => rfl
  | error err =>
    have hab := h err rfl
    unfold notFoundOrValidation at hab
    have hc : ¬ ((!isErr err "ResourceNotFoundException"
        && !isErr err "ValidationException") = true) := by
      cases h2 : isErr err "ResourceNotFoundException" <;>
        cases h3 : isErr err "ValidationException" <;> simp_all
    simp only [EventBridgeRule.targets, if_neg hc, targetsOrEmpty]

theorem EventBridgeRule.rules_scripted (stream : Option (StreamSender τ))
    (hs : NeverFails stream) (region : String)
    (detail : Option String → DescribeRuleOutput)
    (tags : String → Except Err ListTagsForResourceOutput)
    (targets : Option String → Except Err ListTargetsByRuleOutput)
    (items : List Rule) :
    ∀ (values : List Resource) (w : World Script τ),
      w.upstream.tags = tags → w.upstream.targets = targets →
      (∀ r ∈ items, w.upstream.describe r.Name = .ok (detail r.Name)) →
      (∀ r ∈ items, ∀ err, tags (detail r.Name).Arn = .error err →
        notFoundOrValidation err = true) →
      (∀ r ∈ items, ∀ err, targets r.Name = .error err → notFoundOrValidation err = true) →
      (EventBridgeRule.rules scripted stream region items values w).1 = none ∧
      (EventBridgeRule.rules scripted stream region items values w).2.1
        = values ++ returnedPart stream
            (items.map (ruleResource region detail tags targets)) ∧
      (EventBridgeRule.rules scripted stream region items values w).2.2.upstream
        = w.upstream ∧
      deliveries (EventBridgeRule.rules scripted stream region items values w).2.2.trace
        = deliveries w.trace
          ++ deliveredPart stream (items.map (ruleResource region detail tags targets)) ∧
      listCursors (EventBridgeRule.rules scripted stream region items values w).2.2.trace
        = listCursors w.trace := by
  induction items with
  | nil =>
    intro values w _ _ _ _ _
    cases stream <;> simp [EventBridgeRule.rules, returnedPart, deliveredPart]
  | cons listRule rest ih =>
    intro values w htags htargets hdesc htagsTol htargetsTol
    have hd := hdesc listRule (by simp)
    have htol := rule_tagsOutput_tolerated (tags (detail listRule.Name).Arn)
      (htagsTol listRule (by simp))
    have htol2 := rule_targets_tolerated (targets listRule.Name)
      (htargetsTol listRule (by simp))
    simp only [EventBridgeRule.rules, invoke, scripted_DescribeRule,
      scripted_ListTagsForResource, scripted_ListTargetsByRule, hd, htags, htargets,
      htol, htol2]
    generalize hw1 : (World.mk w.upstream w.sink
      (((w.trace ++ [Event.call (Request.DescribeRule listRule.Name)
          (errOf (Except.ok (detail listRule.Name) : Except Err DescribeRuleOutput))])
        ++ [Event.call (Request.ListTagsForResource (detail listRule.Name).Arn)
          (errOf (tags (detail listRule.Name).Arn))])
        ++ [Event.call (Request.ListTargetsByRule listRule.Name)
          (errOf (targets listRule.Name))])) = w1
    have hw1u : w1.upstream = w.upstream := by rw [← hw1]
    have hw1d : deliveries w1.trace = deliveries w.trace := by
      rw [← hw1]; simp [deliveries_append, deliveries]
    have hw1c : listCursors w1.trace = listCursors w.trace := by
      rw [← hw1]; simp [listCursors_append, listCursors]
    obtain ⟨he1, he2, he3, he4, he5⟩ := emit_ok stream hs
      { Region := region, ARN := (detail listRule.Name).Arn,
        Name := (detail listRule.Name).Name,
        Description := Description.EventBridgeRuleDescription (detail listRule.Name)
          (tagsOrEmpty (tags (detail listRule.Name).Arn))
          (targetsOrEmpty (targets listRule.Name)) } values w1
    rcases hem : emit stream
      { Region := region, ARN := (detail listRule.Name).Arn,
        Name := (detail listRule.Name).Name,
        Description := Description.EventBridgeRuleDescription (detail listRule.Name)
          (tagsOrEmpty (tags (detail listRule.Name).Arn))
          (targetsOrEmpty (targets listRule.Name)) } values w1 with ⟨e, values1, w2⟩
    rw [hem] at he1 he2 he3 he4 he5
    simp only at he1 he2 he3 he4 he5
    subst he1
    have hu2 : w2.upstream = w.upstream := by rw [he3, hw1u]
    obtain ⟨i1, i2, i3, i4, i5⟩ := ih values1 w2 (by rw [hu2, htags]) (by rw [hu2, htargets])
      (by intro r hr; rw [hu2]; exact hdesc r (by simp [hr]))
      (fun r hr => htagsTol r (by simp [hr]))
      (fun r hr => htargetsTol r (by simp [hr]))
    refine ⟨i1, ?_, ?_, ?_, ?_⟩
    · rw [i2, he2]
      simp only [List.map_cons, List.append_assoc]
      rw [← returnedPart_append]
      rfl
    · rw [i3, hu2]
    · rw [i4, he4, hw1d]
      simp only [List.map_cons, List.append_assoc]
      rw [← deliveredPart_append]
      rfl
    · rw [i5, he5, hw1c]

theorem scripted_ListRules_cons (prevToken : Option String) (s : Script)
    (page : Except Err ListRulesOutput) (rest : List (Except Err ListRulesOutput))
    (h : s.rules = page :: rest) :
    scripted.ListRules prevToken s = (page, { s with rules := rest }) := by
  simp only [scripted, h]

theorem EventBridgeRule.paginate_scripted (stream : Option (StreamSender τ))
    (hs : NeverFails stream) (region : String)
    (detail : Option String → DescribeRuleOutput)
    (tags : String → Except Err ListTagsForResourceOutput)
    (targets : Option String → Except Err ListTargetsByRuleOutput)
    (pages : List ListRulesOutput) (last : ListRulesOutput)
    (hlast : last.NextToken = none) :
    ∀ (fuel : Nat) (prevToken : Option String) (values : List Resource)
      (w : World Script τ),
      w.upstream.tags = tags → w.upstream.targets = targets →
      w.upstream.rules = (pages ++ [last]).map Except.ok →
      (∀ p ∈ pages, p.NextToken ≠ none) →
      (∀ p ∈ pages ++ [last], ∀ r ∈ p.Rules,
        w.upstream.describe r.Name = .ok (detail r.Name)) →
      (∀ p ∈ pages ++ [last], ∀ r ∈ p.Rules, ∀ err,
        tags (detail r.Name).Arn = .error err → notFoundOrValidation err = true) →
      (∀ p ∈ pages ++ [last], ∀ r ∈ p.Rules, ∀ err,
        targets r.Name = .error err → notFoundOrValidation err = true) →
      pages.length < fuel →
      (PaginateRetrieveAll.loop (EventBridgeRule.fn scripted stream region) fuel prevToken
          (values, w)).1 = some none ∧
      (PaginateRetrieveAll.loop (EventBridgeRule.fn scripted stream region) fuel prevToken
          (values, w)).2.1
        = values ++ returnedPart stream ((pages ++ [last]).flatMap
            (fun p => p.Rules.map (ruleResource region detail tags targets))) ∧
      deliveries (PaginateRetrieveAll.loop (EventBridgeRule.fn scripted stream region) fuel
          prevToken (values, w)).2.2.trace
        = deliveries w.trace ++ deliveredPart stream ((pages ++ [last]).flatMap
            (fun p => p.Rules.map (ruleResource region detail tags targets))) ∧
      listCursors (PaginateRetrieveAll.loop (EventBridgeRule.fn scripted stream region) fuel
          prevToken (values, w)).2.2.trace
        = listCursors w.trace ++ prevToken :: pages.map (fun p => p.NextToken) := by
  induction pages with
  | nil =>
    intro fuel prevToken values w htags htargets hpages _ hdesc htagsTol htargetsTol hfuel
    obtain ⟨fuel, rfl⟩ : ∃ f, fuel = f + 1 := ⟨fuel - 1, by simp at hfuel; omega⟩
    simp only [List.nil_append, List.map_cons, List.map_nil] at hpages
    simp only [PaginateRetrieveAll.loop, EventBridgeRule.fn, invoke,
      scripted_ListRules_cons prevToken w.upstream _ _ hpages]
    generalize hw1 : (World.mk { w.upstream with rules := [] } w.sink
      (w.trace ++ [Event.call (Request.ListRules prevToken)
        (errOf (Except.ok last : Except Err ListRulesOutput))])) = w1
    have hw1t : w1.upstream.tags = tags := by rw [← hw1]; exact htags
    have hw1g : w1.upstream.targets = targets := by rw [← hw1]; exact htargets
    have hw1e : w1.upstream.describe = w.upstream.describe := by rw [← hw1]
    have hw1d : deliveries w1.trace = deliveries w.trace := by
      rw [← hw1]; simp [deliveries_append, deliveries]
    have hw1c : listCursors w1.trace = listCursors w.trace ++ [prevToken] := by
      rw [← hw1]; simp [listCursors_append, listCursors]
    obtain ⟨b1, b2, b3, b4, b5⟩ :=
      EventBridgeRule.rules_scripted stream hs region detail tags targets last.Rules values w1
        hw1t hw1g (by intro r hr; rw [hw1e]; exact hdesc last (by simp) r hr)
        (htagsTol last (by simp)) (htargetsTol last (by simp))
    rcases hb : EventBridgeRule.rules scripted stream region last.Rules values w1
      with ⟨e, values1, w2⟩
    rw [hb] at b1 b2 b3 b4 b5
    simp only at b1 b2 b3 b4 b5
    subst b1
    simp only [hlast, List.nil_append, List.flatMap_cons, List.flatMap_nil, List.append_nil,
      List.map_nil]
    exact ⟨trivial, by rw [b2], by rw [b4, hw1d], by rw [b5, hw1c]⟩
  | cons page pages ih =>
    intro fuel prevToken values w htags htargets hpages hcur hdesc htagsTol htargetsTol hfuel
    obtain ⟨fuel, rfl⟩ : ∃ f, fuel = f + 1 := ⟨fuel - 1, by simp at hfuel; omega⟩
    obtain ⟨tok, htok⟩ : ∃ tok, page.NextToken = some tok := by
      have := hcur page (by simp)
      exact Option.ne_none_iff_exists'.mp this
    simp only [List.cons_append, List.map_cons] at hpages
    simp only [PaginateRetrieveAll.loop, EventBridgeRule.fn, invoke,
      scripted_ListRules_cons prevToken w.upstream _ _ hpages]
    generalize hw1 : (World.mk { w.upstream with
        rules := List.map Except.ok (pages ++ [last]) } w.sink
      (w.trace ++ [Event.call (Request.ListRules prevToken)
        (errOf (Except.ok page : Except Err ListRulesOutput))])) = w1
    have hw1t : w1.upstream.tags = tags := by rw [← hw1]; exact htags
    have hw1g : w1.upstream.targets = targets := by rw [← hw1]; exact htargets
    have hw1e : w1.upstream.describe = w.upstream.describe := by rw [← hw1]
    have hw1p : w1.upstream.rules = List.map Except.ok (pages ++ [last]) := by
      rw [← hw1]
    have hw1d : deliveries w1.trace = deliveries w.trace := by
      rw [← hw1]; simp [deliveries_append, deliveries]
    have hw1c : listCursors w1.trace = listCursors w.trace ++ [prevToken] := by
      rw [← hw1]; simp [listCursors_append, listCursors]
    obtain ⟨b1, b2, b3, b4, b5⟩ :=
      EventBridgeRule.rules_scripted stream hs region detail tags targets page.Rules values w1
        hw1t hw1g (by intro r hr; rw [hw1e]; exact hdesc page (by simp) r hr)
        (htagsTol page (by simp)) (htargetsTol page (by simp))
    rcases hb : EventBridgeRule.rules scripted stream region page.Rules values w1
      with ⟨e, values1, w2⟩
    rw [hb] at b1 b2 b3 b4 b5
    simp only at b1 b2 b3 b4 b5
    subst b1
    simp only [htok]
    obtain ⟨i1, i2, i3, i4⟩ := ih fuel (some tok) values1 w2
      (by rw [b3, hw1t]) (by rw [b3, hw1g]) (by rw [b3, hw1p])
      (fun p hp => hcur p (by simp [hp]))
      (by
        intro p hp r hr
        rw [b3, hw1e]
        exact hdesc p (by simp only [List.cons_append, List.mem_cons]; exact Or.inr hp) r hr)
      (fun p hp => htagsTol p (by simp only [List.cons_append, List.mem_cons]; exact Or.inr hp))
      (fun p hp =>
        htargetsTol p (by simp only [List.cons_append, List.mem_cons]; exact Or.inr hp))
      (by simp at hfuel; omega)
    refine ⟨i1, ?_, ?_, ?_⟩
    · rw [i2, b2]
      simp [returnedPart_append]
    · rw [i3, b4, hw1d]
      simp [deliveredPart_append]
    · rw [i4, b5, hw1c]
      simp [htok]

theorem calls_append (a b : List Event) : calls (a ++ b) = calls a ++ calls b := by
  induction a with
  | nil => rfl
  | cons x xs ih =>
    cases x with
    | call req err => simpa [calls] using ih
    | deliver r err => simpa [calls] using ih

theorem InStep.refl (ws wb : World σ τ) (h : ws.upstream = wb.upstream) :
    InStep ws wb ws wb [] := by
  simp [InStep, calls, h]

theorem InStep.trans {ws wb ws1 wb1 ws2 wb2 : World σ τ} {A B : List Event}
    (h1 : InStep ws wb ws1 wb1 A) (h2 : InStep ws1 wb1 ws2 wb2 B) :
    InStep ws wb ws2 wb2 (A ++ B) := by
  obtain ⟨a1, a2, a3⟩ := h1
  obtain ⟨b1, b2, b3⟩ := h2
  refine ⟨?_, ?_, b3⟩
  · rw [b1, a1, List.append_assoc]
  · rw [b2, a2, calls_append, List.append_assoc]

theorem invoke_inStep {α : Type} (op : σ → Except Err α × σ) (req : Request)
    (ws wb : World σ τ) (h : ws.upstream = wb.upstream) :
    (invoke op req ws).1 = (invoke op req wb).1 ∧
    InStep ws wb (invoke op req ws).2 (invoke op req wb).2
      [Event.call req (errOf (invoke op req wb).1)] := by
  simp only [invoke, InStep, h, calls, and_self]

theorem emit_inStep (send : StreamSender τ) (hs : ∀ r t, (send r t).1 = none)
    (r : Resource) (vs vb : List Resource) (ws wb : World σ τ)
    (h : ws.upstream = wb.upstream) :
    (emit (some send) r vs ws).1 = none ∧ (emit (some send) r vs ws).2.1 = vs ∧
    emit none r vb wb = (none, vb ++ [r], wb) ∧
    InStep ws wb (emit (some send) r vs ws).2.2 wb [Event.deliver r none] := by
  have hsr := hs r ws.sink
  simp only [emit, deliver, hsr, InStep, calls, h, List.append_nil, and_self]

theorem EventBridgeBus.buses_inStep (client : Client σ) (send : StreamSender τ)
    (hs : ∀ r t, (send r t).1 = none) (region : String) (items : List EventBus) :
    ∀ (vb : List Resource) (ws wb : World σ τ), ws.upstream = wb.upstream →
      ∃ A,
        InStep ws wb (EventBridgeBus.buses client (some send) region items [] ws).2.2
          (EventBridgeBus.buses client none region items vb wb).2.2 A ∧
        (EventBridgeBus.buses client (some send) region items [] ws).1
          = (EventBridgeBus.buses client none region items vb wb).1 ∧
        (EventBridgeBus.buses client (some send) region items [] ws).2.1 = [] ∧
        ((EventBridgeBus.buses client none region items vb wb).1 = none →
          (EventBridgeBus.buses client none region items vb wb).2.1 = vb ++ deliveries A) ∧
        (∀ ev ∈ A, ev.failedListEventBuses = false) := by
  induction items with
  | nil =>
    intro vb ws wb h
    exact ⟨[], by simpa [EventBridgeBus.buses] using InStep.refl ws wb h,
      by simp [EventBridgeBus.buses], by simp [EventBridgeBus.buses],
      by simp [EventBridgeBus.buses, deliveries], by simp⟩
  | cons bus rest ih =>
    intro vb ws wb h
    obtain ⟨hres, hstep⟩ := invoke_inStep (client.ListTagsForResource bus.Arn)
      (Request.ListTagsForResource bus.Arn) ws wb h
    simp only [EventBridgeBus.buses]
    rcases his : invoke (client.ListTagsForResource bus.Arn)
      (Request.ListTagsForResource bus.Arn) ws with ⟨res, ws1⟩
    rcases hib : invoke (client.ListTagsForResource bus.Arn)
      (Request.ListTagsForResource bus.Arn) wb with ⟨resb, wb1⟩
    rw [his, hib] at hres hstep
    simp only at hres hstep
    subst hres
    simp only
    cases htag : EventBridgeBus.tagsOutput res with
    | error err =>
      simp only
      exact ⟨_, hstep, trivial, trivial, by simp, by simp [Event.failedListEventBuses]⟩
    | ok tagsOutput =>
      simp only
      obtain ⟨e1, e2, e3, e4⟩ := emit_inStep send hs
        { Region := region, ARN := bus.Arn, Name := bus.Name,
          Description := Description.EventBridgeBusDescription bus tagsOutput.Tags }
        [] vb ws1 wb1 hstep.2.2
      rcases hem : emit (some send)
        { Region := region, ARN := bus.Arn, Name := bus.Name,
          Description := Description.EventBridgeBusDescription bus tagsOutput.Tags }
        [] ws1 with ⟨e, vs1, ws2⟩
      rw [hem] at e1 e2 e4
      simp only at e1 e2 e4
      subst e1 e2
      rw [e3]
      simp only
      obtain ⟨A, i1, i2, i3, i4, i5⟩ := ih (vb ++ [
        { Region := region, ARN := bus.Arn, Name := bus.Name,
          Description := Description.EventBridgeBusDescription bus tagsOutput.Tags }])
        ws2 wb1 e4.2.2
      refine ⟨_, (hstep.trans e4).trans i1, i2, i3, ?_, ?_⟩
      · intro hnone
        rw [i4 hnone]
        simp [deliveries_append, deliveries]
      · intro ev hev
        simp only [List.mem_append, List.mem_singleton] at hev
        rcases hev with (rfl | rfl) | hev
        · rfl
        · rfl
        · exact i5 ev hev

theorem EventBridgeBus.loop_inStep (client : Client σ) (send : StreamSender τ)
    (hs : ∀ r t, (send r t).1 = none) (region : String) (fuel : Nat) :
    ∀ (input : ListEventBusesInput) (vb : List Resource) (ws wb : World σ τ),
      ws.upstream = wb.upstream →
      ∃ A,
        InStep ws wb (EventBridgeBus.loop client (some send) region fuel input [] ws).2
          (EventBridgeBus.loop client none region fuel input vb wb).2 A ∧
        (EventBridgeBus.loop client (some send) region fuel input [] ws).1.map Prod.snd
          = (EventBridgeBus.loop client none region fuel input vb wb).1.map Prod.snd ∧
        (∀ vals e, (EventBridgeBus.loop client (some send) region fuel input [] ws).1
          = some (vals, e) → vals = []) ∧
        (∀ vals, (EventBridgeBus.loop client none region fuel input vb wb).1
            = some (vals, none) →
          (∀ ev ∈ A, ev.failedListEventBuses = false) → vals = vb ++ deliveries A) := by
  induction fuel with
  | zero =>
    intro input vb ws wb h
    exact ⟨[], by simpa [EventBridgeBus.loop] using InStep.refl ws wb h,
      by simp [EventBridgeBus.loop], by simp [EventBridgeBus.loop],
      by simp [EventBridgeBus.loop]⟩
  | succ fuel ih =>
    intro input vb ws wb h
    obtain ⟨hres, hstep⟩ := invoke_inStep (client.ListEventBuses input)
      (Request.ListEventBuses input) ws wb h
    simp only [EventBridgeBus.loop]
    rcases his : invoke (client.ListEventBuses input) (Request.ListEventBuses input) ws
      with ⟨res, ws1⟩
    rcases hib : invoke (client.ListEventBuses input) (Request.ListEventBuses input) wb
      with ⟨resb, wb1⟩
    rw [his, hib] at hres hstep
    simp only at hres hstep
    subst hres
    cases res with
    | error err =>
      simp only
      have hfailed : ¬ ∀ ev ∈ [Event.call (Request.ListEventBuses input)
          (errOf (Except.error err : Except Err ListEventBusesOutput))],
          ev.failedListEventBuses = false := by
        intro hfail
        have := hfail _ (List.mem_singleton.mpr rfl)
        simp [errOf, Event.failedListEventBuses] at this
      by_cases hc : (isErr err "InvalidParameter" || isErr err "ResourceNotFoundException"
          || isErr err "ValidationException") = true
      · simp only [if_pos hc]
        refine ⟨_, hstep, by simp, ?_, ?_⟩
        · intro vals e hv
          simp only [Option.some.injEq, Prod.mk.injEq] at hv
          exact hv.1.symm
        · intro vals _ hfail
          exact absurd hfail hfailed
      · simp only [if_neg hc]
        refine ⟨_, hstep, by simp, ?_, ?_⟩
        · intro vals e hv
          simp only [Option.some.injEq, Prod.mk.injEq] at hv
          exact hv.1.symm
        · intro vals _ hfail
          exact absurd hfail hfailed
    | ok response =>
      simp only
      obtain ⟨A, b1, b2, b3, b4, b5⟩ := EventBridgeBus.buses_inStep client send hs region
        response.EventBuses vb ws1 wb1 hstep.2.2
      rcases hbs : EventBridgeBus.buses client (some send) region response.EventBuses [] ws1
        with ⟨es, vs1, ws2⟩
      rcases hbb : EventBridgeBus.buses client none region response.EventBuses vb wb1
        with ⟨eb, vb1, wb2⟩
      simp only [hbs, hbb] at b1 b2 b3 b4
      subst b2 b3
      cases es with
      | some err =>
        simp only
        refine ⟨_, hstep.trans b1, by simp, ?_, ?_⟩
        · intro vals e hv
          simp only [Option.some.injEq, Prod.mk.injEq] at hv
          exact hv.1.symm
        · intro vals hv
          simp at hv
      | none =>
        simp only
        have hvb1 := b4 rfl
        cases response.NextToken with
        | none =>
          simp only
          refine ⟨_, hstep.trans b1, by simp, ?_, ?_⟩
          · intro vals e hv
            simp only [Option.some.injEq, Prod.mk.injEq] at hv
            exact hv.1.symm
          · intro vals hv _
            simp only [Option.some.injEq, Prod.mk.injEq, and_true] at hv
            rw [← hv, hvb1]
            simp [deliveries_append, deliveries, errOf]
        | some tok =>
          simp only
          obtain ⟨B, i1, i2, i3, i4⟩ :=
            ih { input with NextToken := some tok } vb1 ws2 wb2 b1.2.2
          refine ⟨_, (hstep.trans b1).trans i1, i2, i3, ?_⟩
          intro vals hv hfail
          rw [i4 vals hv (fun ev hev => hfail ev (by simp [hev])), hvb1]
          simp [deliveries_append, deliveries, errOf]

theorem EventBridgeRule.rules_inStep (client : Client σ) (send : StreamSender τ)
    (hs : ∀ r t, (send r t).1 = none) (region : String) (items : List Rule) :
    ∀ (vb : List Resource) (ws wb : World σ τ), ws.upstream = wb.upstream →
      ∃ A,
        InStep ws wb (EventBridgeRule.rules client (some send) region items [] ws).2.2
          (EventBridgeRule.rules client none region items vb wb).2.2 A ∧
        (EventBridgeRule.rules client (some send) region items [] ws).1
          = (EventBridgeRule.rules client none region items vb wb).1 ∧
        (EventBridgeRule.rules client (some send) region items [] ws).2.1 = [] ∧
        ((EventBridgeRule.rules client none region items vb wb).1 = none →
          (EventBridgeRule.rules client none region items vb wb).2.1
            = vb ++ deliveries A) := by
  induction items with
  | nil =>
    intro vb ws wb h
    exact ⟨[], by simpa [EventBridgeRule.rules] using InStep.refl ws wb h,
      by simp [EventBridgeRule.rules], by simp [EventBridgeRule.rules],
      by simp [EventBridgeRule.rules, deliveries]⟩
  | cons listRule rest ih =>
    intro vb ws wb h
    obtain ⟨hres, hstep⟩ := invoke_inStep (client.DescribeRule listRule.Name)
      (Request.DescribeRule listRule.Name) ws wb h
    simp only [EventBridgeRule.rules]
    rcases his : invoke (client.DescribeRule listRule.Name)
      (Request.DescribeRule listRule.Name) ws with ⟨res, ws1⟩
    rcases hib : invoke (client.DescribeRule listRule.Name)
      (Request.DescribeRule listRule.Name) wb with ⟨resb, wb1⟩
    simp only [his, hib] at hres hstep
    subst hres
    cases res with
    | error err =>
      simp only
      exact ⟨_, hstep, trivial, trivial, by simp⟩
    | ok rule =>
      simp only
      obtain ⟨hres2, hstep2⟩ := invoke_inStep (client.ListTagsForResource rule.Arn)
        (Request.ListTagsForResource rule.Arn) ws1 wb1 hstep.2.2
      rcases his2 : invoke (client.ListTagsForResource rule.Arn)
        (Request.ListTagsForResource rule.Arn) ws1 with ⟨tagsRes, ws2⟩
      rcases hib2 : invoke (client.ListTagsForResource rule.Arn)
        (Request.ListTagsForResource rule.Arn) wb1 with ⟨tagsResb, wb2⟩
      simp only [his2, hib2] at hres2 hstep2
      subst hres2
      simp only
      cases htag : EventBridgeRule.tagsOutput tagsRes with
      | error err =>
        simp only
        exact ⟨_, hstep.trans hstep2, trivial, trivial, by simp⟩
      | ok tagsOutput =>
        simp only
        obtain ⟨hres3, hstep3⟩ := invoke_inStep (client.ListTargetsByRule listRule.Name)
          (Request.ListTargetsByRule listRule.Name) ws2 wb2 hstep2.2.2
        rcases his3 : invoke (client.ListTargetsByRule listRule.Name)
          (Request.ListTargetsByRule listRule.Name) ws2 with ⟨targetsRes, ws3⟩
        rcases hib3 : invoke (client.ListTargetsByRule listRule.Name)
          (Request.ListTargetsByRule listRule.Name) wb2 with ⟨targetsResb, wb3⟩
        simp only [his3, hib3] at hres3 hstep3
        subst hres3
        simp only
        cases htar : EventBridgeRule.targets targetsRes with
        | error err =>
          simp only
          exact ⟨_, (hstep.trans hstep2).trans hstep3, trivial, trivial, by simp⟩
        | ok targets =>
          simp only
          obtain ⟨e1, e2, e3, e4⟩ := emit_inStep send hs
            { Region := region, ARN := rule.Arn, Name := rule.Name,
              Description := Description.EventBridgeRuleDescription rule
                tagsOutput.Tags targets.Targets }
            [] vb ws3 wb3 hstep3.2.2
          rcases hem : emit (some send)
            { Region := region, ARN := rule.Arn, Name := rule.Name,
              Description := Description.EventBridgeRuleDescription rule
                tagsOutput.Tags targets.Targets }
            [] ws3 with ⟨e, vs1, ws4⟩
          simp only [hem] at e1 e2 e4
          subst e1 e2
          rw [e3]
          simp only
          obtain ⟨A, i1, i2, i3, i4⟩ := ih (vb ++ [
            { Region := region, ARN := rule.Arn, Name := rule.Name,
              Description := Description.EventBridgeRuleDescription rule
                tagsOutput.Tags targets.Targets }])
            ws4 wb3 e4.2.2
          refine ⟨_, (((hstep.trans hstep2).trans hstep3).trans e4).trans i1, i2, i3, ?_⟩
          intro hnone
          rw [i4 hnone]
          simp [deliveries_append, deliveries]

theorem EventBridgeRule.fn_inStep (client : Client σ) (send : StreamSender τ)
    (hs : ∀ r t, (send r t).1 = none) (region : String) (prevToken : Option String)
    (vb : List Resource) (ws wb : World σ τ) (h : ws.upstream = wb.upstream) :
    ∃ A,
      InStep ws wb (EventBridgeRule.fn client (some send) region prevToken ([], ws)).2.2
        (EventBridgeRule.fn client none region prevToken (vb, wb)).2.2 A ∧
      (EventBridgeRule.fn client (some send) region prevToken ([], ws)).1
        = (EventBridgeRule.fn client none region prevToken (vb, wb)).1 ∧
      (EventBridgeRule.fn client (some send) region prevToken ([], ws)).2.1 = [] ∧
      ((EventBridgeRule.fn client none region prevToken (vb, wb)).1.2 = none →
        (EventBridgeRule.fn client none region prevToken (vb, wb)).2.1
          = vb ++ deliveries A) := by
  obtain ⟨hres, hstep⟩ := invoke_inStep (client.ListRules prevToken)
    (Request.ListRules prevToken) ws wb h
  simp only [EventBridgeRule.fn]
  rcases his : invoke (client.ListRules prevToken) (Request.ListRules prevToken) ws
    with ⟨res, ws1⟩
  rcases hib : invoke (client.ListRules prevToken) (Request.ListRules prevToken) wb
    with ⟨resb, wb1⟩
  simp only [his, hib] at hres hstep
  subst hres
  cases res with
  | error err =>
    simp only
    exact ⟨_, hstep, trivial, trivial, by simp⟩
  | ok out =>
    simp only
    obtain ⟨A, b1, b2, b3, b4⟩ := EventBridgeRule.rules_inStep client send hs region
      out.Rules vb ws1 wb1 hstep.2.2
    rcases hbs : EventBridgeRule.rules client (some send) region out.Rules [] ws1
      with ⟨es, vs1, ws2⟩
    rcases hbb : EventBridgeRule.rules client none region out.Rules vb wb1
      with ⟨eb, vb1, wb2⟩
    simp only [hbs, hbb] at b1 b2 b3 b4
    subst b2 b3
    cases es with
    | some err =>
      simp only
      exact ⟨_, hstep.trans b1, trivial, trivial, by simp⟩
    | none =>
      simp only
      refine ⟨_, hstep.trans b1, trivial, trivial, ?_⟩
      intro _
      rw [b4 rfl]
      simp [deliveries_append, deliveries, errOf]

theorem EventBridgeRule.paginate_inStep (client : Client σ) (send : StreamSender τ)
    (hs : ∀ r t, (send r t).1 = none) (region : String) (fuel : Nat) :
    ∀ (prevToken : Option String) (vb : List Resource) (ws wb : World σ τ),
      ws.upstream = wb.upstream →
      ∃ A,
        InStep ws wb
          (PaginateRetrieveAll.loop (EventBridgeRule.fn client (some send) region) fuel
            prevToken ([], ws)).2.2
          (PaginateRetrieveAll.loop (EventBridgeRule.fn client none region) fuel
            prevToken (vb, wb)).2.2 A ∧
        (PaginateRetrieveAll.loop (EventBridgeRule.fn client (some send) region) fuel
            prevToken ([], ws)).1
          = (PaginateRetrieveAll.loop (EventBridgeRule.fn client none region) fuel
            prevToken (vb, wb)).1 ∧
        (PaginateRetrieveAll.loop (EventBridgeRule.fn client (some send) region) fuel
            prevToken ([], ws)).2.1 = [] ∧
        ((PaginateRetrieveAll.loop (EventBridgeRule.fn client none region) fuel
            prevToken (vb, wb)).1 = some none →
          (PaginateRetrieveAll.loop (EventBridgeRule.fn client none region) fuel
            prevToken (vb, wb)).2.1 = vb ++ deliveries A) := by
  induction fuel with
  | zero =>
    intro prevToken vb ws wb h
    exact ⟨[], by simpa [PaginateRetrieveAll.loop] using InStep.refl ws wb h,
      by simp [PaginateRetrieveAll.loop], by simp [PaginateRetrieveAll.loop],
      by simp [PaginateRetrieveAll.loop]⟩
  | succ fuel ih =>
    intro prevToken vb ws wb h
    obtain ⟨A, f1, f2, f3, f4⟩ :=
      EventBridgeRule.fn_inStep client send hs region prevToken vb ws wb h
    simp only [PaginateRetrieveAll.loop]
    rcases hfs : EventBridgeRule.fn client (some send) region prevToken ([], ws)
      with ⟨⟨toks, es⟩, vs1, ws1⟩
    rcases hfb : EventBridgeRule.fn client none region prevToken (vb, wb)
      with ⟨⟨tokb, eb⟩, vb1, wb1⟩
    simp only [hfs, hfb, Prod.mk.injEq] at f1 f2 f3 f4
    obtain ⟨rfl, rfl⟩ := f2
    subst f3
    cases es with
    | some err =>
      simp only
      exact ⟨_, f1, trivial, trivial, by simp⟩
    | none =>
      have hvb1 := f4 rfl
      cases toks with
      | none =>
        simp only
        exact ⟨_, f1, trivial, trivial, fun _ => hvb1⟩
      | some nextToken =>
        simp only
        obtain ⟨B, i1, i2, i3, i4⟩ := ih (some nextToken) vb1 ws1 wb1 f1.2.2
        refine ⟨_, f1.trans i1, i2, i3, ?_⟩
        intro hv
        rw [i4 hv, hvb1]
        simp [deliveries_append]

theorem neverFails_none : NeverFails (none : Option (StreamSender τ)) := by
  intro send h
  cases h

theorem neverFails_collect : NeverFails (some collect) := by
  intro send h r t
  cases h
  rfl

theorem mem_calls {req : Request} {err : Option Err} {A : List Event}
    (h : Event.call req err ∈ A) : Event.call req err ∈ calls A := by
  induction A with
  | nil => cases h
  | cons x xs ih =>
    cases x with
    | deliver r e =>
      simp only [List.mem_cons] at h
      rcases h with h | h
      · cases h
      · simpa [calls] using ih h
    | call rq e =>
      simp only [List.mem_cons] at h
      rcases h with h | h
      · rw [← h]; simp [calls]
      · simp only [calls, List.mem_cons]; exact Or.inr (ih h)

theorem EventBridgeBus.bus_run_scripted (stream : Option (StreamSender τ))
    (hs : NeverFails stream) (region : String) (sink : τ) (s : Script) (fuel : Nat)
    (pages : List ListEventBusesOutput) (last : ListEventBusesOutput)
    (hpages : s.eventBuses = (pages ++ [last]).map Except.ok)
    (hcur : ∀ p ∈ pages, p.NextToken ≠ none) (hlast : last.NextToken = none)
    (hitems : ∀ p ∈ pages ++ [last], ∀ bus ∈ p.EventBuses, ∀ err,
      s.tags bus.Arn = .error err → absenceClass err = true)
    (hfuel : pages.length < fuel) :
    (EventBridgeBus scripted stream region fuel (World.init s sink)).1
      = some (returnedPart stream
          ((pages ++ [last]).flatMap (fun p => p.EventBuses.map (busResource region s.tags))),
        none) ∧
    deliveries (EventBridgeBus scripted stream region fuel (World.init s sink)).2.trace
      = deliveredPart stream
          ((pages ++ [last]).flatMap (fun p => p.EventBuses.map (busResource region s.tags))) ∧
    listCursors (EventBridgeBus scripted stream region fuel (World.init s sink)).2.trace
      = none :: pages.map (fun p => p.NextToken) := by
  have h := EventBridgeBus.loop_scripted stream hs region s.tags pages last hlast fuel
    { Limit := some 100, NextToken := none } [] (World.init s sink) rfl hpages hcur hitems
    hfuel
  simpa [EventBridgeBus, World.init, deliveries, listCursors] using h

theorem EventBridgeRule.rule_run_scripted (stream : Option (StreamSender τ))
    (hs : NeverFails stream) (region : String) (sink : τ) (s : Script) (fuel : Nat)
    (detail : Option String → DescribeRuleOutput)
    (pages : List ListRulesOutput) (last : ListRulesOutput)
    (hpages : s.rules = (pages ++ [last]).map Except.ok)
    (hcur : ∀ p ∈ pages, p.NextToken ≠ none) (hlast : last.NextToken = none)
    (hdesc : ∀ p ∈ pages ++ [last], ∀ r ∈ p.Rules, s.describe r.Name = .ok (detail r.Name))
    (htags : ∀ p ∈ pages ++ [last], ∀ r ∈ p.Rules, ∀ err,
      s.tags (detail r.Name).Arn = .error err → notFoundOrValidation err = true)
    (htargets : ∀ p ∈ pages ++ [last], ∀ r ∈ p.Rules, ∀ err,
      s.targets r.Name = .error err → notFoundOrValidation err = true)
    (hfuel : pages.length < fuel) :
    (EventBridgeRule scripted stream region fuel (World.init s sink)).1
      = some (returnedPart stream ((pages ++ [last]).flatMap
          (fun p => p.Rules.map (ruleResource region detail s.tags s.targets))), none) ∧
    deliveries (EventBridgeRule scripted stream region fuel (World.init s sink)).2.trace
      = deliveredPart stream ((pages ++ [last]).flatMap
          (fun p => p.Rules.map (ruleResource region detail s.tags s.targets))) ∧
    listCursors (EventBridgeRule scripted stream region fuel (World.init s sink)).2.trace
      = none :: pages.map (fun p => p.NextToken) := by
  obtain ⟨h1, h2, h3, h4⟩ := EventBridgeRule.paginate_scripted stream hs region detail
    s.tags s.targets pages last hlast fuel none [] (World.init s sink) rfl rfl hpages hcur
    hdesc htags htargets hfuel
  simp only [EventBridgeRule, PaginateRetrieveAll]
  rcases hp : PaginateRetrieveAll.loop (EventBridgeRule.fn scripted stream region) fuel none
    ([], World.init s sink) with ⟨r, vals, w⟩
  simp only [hp] at h1 h2 h3 h4
  subst h1
  simp only
  refine ⟨?_, ?_, ?_⟩
  · rw [h2]; simp
  · rw [h3]; simp [World.init, deliveries]
  · rw [h4]; simp [World.init, listCursors]

/-- Claim C1 fails for `EventBridgeRule`: when the first `ListRules` call
fails with `ResourceNotFoundException`, an absence-class code, that call is
the only one made and the enumerator returns the error, not a nil error. -/
theorem rule_primary_absence_counterexample :
    absenceClass resourceNotFound = true ∧
    (EventBridgeRule scripted (none : Option (StreamSender Unit)) "us-east-1" 1
      (World.init (firstPageFails resourceNotFound) ())).2.trace
      = [Event.call (Request.ListRules none) (some resourceNotFound)] ∧
    (EventBridgeRule scripted (none : Option (StreamSender Unit)) "us-east-1" 1
      (World.init (firstPageFails resourceNotFound) ())).1
      = some ([], some resourceNotFound) ∧
    (EventBridgeRule scripted (none : Option (StreamSender Unit)) "us-east-1" 1
      (World.init (firstPageFails resourceNotFound) ())).1 ≠ some ([], none) := by
  decide

/-- Claim C1, amended.  When the first list call fails with an absence-class
code, `EventBridgeBus` returns zero items and a nil error, and
`EventBridgeRule` returns zero items together with that error. -/
theorem primary_absence_bus_empty_rule_error (client : Client σ)
    (stream : Option (StreamSender τ)) (region : String) (fuel : Nat) (w : World σ τ)
    (err : Err) (hfuel : 0 < fuel) (habs : absenceClass err = true) :
    ((client.ListEventBuses { Limit := some 100, NextToken := none } w.upstream).1
        = .error err →
      (EventBridgeBus client stream region fuel w).1 = some ([], none)) ∧
    ((client.ListRules none w.upstream).1 = .error err →
      (EventBridgeRule client stream region fuel w).1 = some ([], some err)) := by
  obtain ⟨fuel, rfl⟩ : ∃ f, fuel = f + 1 := ⟨fuel - 1, by omega⟩
  constructor
  · intro h
    unfold absenceClass at habs
    simp only [EventBridgeBus, EventBridgeBus.loop, invoke, h, if_pos habs]
  · intro h
    simp only [EventBridgeRule, PaginateRetrieveAll, PaginateRetrieveAll.loop,
      EventBridgeRule.fn, invoke, h]

/-- The amended C1 at a first list call that fails with
`ValidationException`. -/
theorem primary_absence_witness :
    (EventBridgeBus scripted (none : Option (StreamSender Unit)) "us-east-1" 1
      (World.init (firstPageFails validationFailed) ())).1 = some ([], none) ∧
    (EventBridgeRule scripted (none : Option (StreamSender Unit)) "us-east-1" 1
      (World.init (firstPageFails validationFailed) ())).1
      = some ([], some validationFailed) :=
  have h := primary_absence_bus_empty_rule_error scripted
    (none : Option (StreamSender Unit)) "us-east-1" 1
    (World.init (firstPageFails validationFailed) ()) validationFailed
    (by decide) (by decide)
  ⟨h.1 rfl, h.2 rfl⟩

/-- Claim C7, evaluated at the failing input: page 1 of `ListEventBuses` holds
one bus and the cursor `A`, and the call for page 2 fails with
`ResourceNotFoundException`.  `EventBridgeBus` in batch mode has fetched the
bus of page 1 and its tags, and then returns no items with a nil error;
`EventBridgeRule` on the same script returns the error. -/
theorem bus_later_page_absence_drops_items :
    (EventBridgeBus scripted (none : Option (StreamSender Unit)) "us-east-1" 2
      (World.init (secondPageFails resourceNotFound) ())).2.trace
      = [Event.call (Request.ListEventBuses { Limit := some 100, NextToken := none }) none,
         Event.call (Request.ListTagsForResource "arn:x:1") none,
         Event.call (Request.ListEventBuses { Limit := some 100, NextToken := some "A" })
           (some resourceNotFound)] ∧
    (EventBridgeBus scripted (none : Option (StreamSender Unit)) "us-east-1" 2
      (World.init (secondPageFails resourceNotFound) ())).1 = some ([], none) ∧
    (EventBridgeRule scripted (none : Option (StreamSender Unit)) "us-east-1" 2
      (World.init (secondPageFails resourceNotFound) ())).1
      = some ([], some resourceNotFound) := by
  decide

/-- Claim C4.  For a scripted provider of `n = pages.length + 1` successful
pages, all but the last with a cursor and the last without, whose per-item
calls do not fail fatally, and a stream sender that, if there is one, never
fails: given fuel for `n` rounds, each enumerator issues exactly `n` list
calls, the first with an absent cursor and each further one seeded with the
cursor of the page before, returns a nil error, and emits the records of all
items in page order and, within a page, in listing order (as the returned
list in batch mode, as deliveries in streaming mode). -/
theorem pagination_follows_cursors (stream : Option (StreamSender τ))
    (hs : NeverFails stream) (region : String) (sink : τ) (s : Script) (fuel : Nat) :
    (∀ (pages : List ListEventBusesOutput) (last : ListEventBusesOutput),
      s.eventBuses = (pages ++ [last]).map Except.ok →
      (∀ p ∈ pages, p.NextToken ≠ none) → last.NextToken = none →
      (∀ p ∈ pages ++ [last], ∀ bus ∈ p.EventBuses, ∀ err,
        s.tags bus.Arn = .error err → absenceClass err = true) →
      pages.length < fuel →
      listCursors (EventBridgeBus scripted stream region fuel (World.init s sink)).2.trace
        = none :: pages.map (fun p => p.NextToken) ∧
      (EventBridgeBus scripted stream region fuel (World.init s sink)).1
        = some (returnedPart stream (busResources region s.tags (pages ++ [last])), none) ∧
      deliveries (EventBridgeBus scripted stream region fuel (World.init s sink)).2.trace
        = deliveredPart stream (busResources region s.tags (pages ++ [last]))) ∧
    (∀ (detail : Option String → DescribeRuleOutput)
      (pages : List ListRulesOutput) (last : ListRulesOutput),
      s.rules = (pages ++ [last]).map Except.ok →
      (∀ p ∈ pages, p.NextToken ≠ none) → last.NextToken = none →
      (∀ p ∈ pages ++ [last], ∀ r ∈ p.Rules, s.describe r.Name = .ok (detail r.Name)) →
      (∀ p ∈ pages ++ [last], ∀ r ∈ p.Rules, ∀ err,
        s.tags (detail r.Name).Arn = .error err → notFoundOrValidation err = true) →
      (∀ p ∈ pages ++ [last], ∀ r ∈ p.Rules, ∀ err,
        s.targets r.Name = .error err → notFoundOrValidation err = true) →
      pages.length < fuel →
      listCursors (EventBridgeRule scripted stream region fuel (World.init s sink)).2.trace
        = none :: pages.map (fun p => p.NextToken) ∧
      (EventBridgeRule scripted stream region fuel (World.init s sink)).1
        = some (returnedPart stream
            (ruleResources region detail s.tags s.targets (pages ++ [last])), none) ∧
      deliveries (EventBridgeRule scripted stream region fuel (World.init s sink)).2.trace
        = deliveredPart stream
            (ruleResources region detail s.tags s.targets (pages ++ [last]))) := by
  constructor
  · intro pages last hpages hcur hlast hitems hfuel
    obtain ⟨h1, h2, h3⟩ := EventBridgeBus.bus_run_scripted stream hs region sink s fuel pages last
      hpages hcur hlast hitems hfuel
    exact ⟨h3, h1, h2⟩
  · intro detail pages last hpages hcur hlast hdesc htags htargets hfuel
    obtain ⟨h1, h2, h3⟩ := EventBridgeRule.rule_run_scripted stream hs region sink s fuel detail
      pages last hpages hcur hlast hdesc htags htargets hfuel
    exact ⟨h3, h1, h2⟩

/-- Claim C4 at the three-page script with the cursors `A`, `B`, absent: three
list calls, seeded with absent, `A`, `B`, and the items of pages 1, 2, 3 in
that order. -/
theorem pagination_follows_cursors_witness :
    (listCursors (EventBridgeBus scripted (some collect) "us-east-1" 3
        (World.init threePages [])).2.trace = [none, some "A", some "B"] ∧
      deliveries (EventBridgeBus scripted (some collect) "us-east-1" 3
        (World.init threePages [])).2.trace
        = [busResource "us-east-1" threePages.tags (busOf "1"),
           busResource "us-east-1" threePages.tags (busOf "2"),
           busResource "us-east-1" threePages.tags (busOf "3")]) ∧
    (listCursors (EventBridgeRule scripted (some collect) "us-east-1" 3
        (World.init threePages [])).2.trace = [none, some "A", some "B"] ∧
      deliveries (EventBridgeRule scripted (some collect) "us-east-1" 3
        (World.init threePages [])).2.trace
        = [ruleResource "us-east-1" detailOf threePages.tags threePages.targets (ruleOf "1"),
           ruleResource "us-east-1" detailOf threePages.tags threePages.targets (ruleOf "2"),
           ruleResource "us-east-1" detailOf threePages.tags threePages.targets
             (ruleOf "3")]) :=
  have h := pagination_follows_cursors (some collect) neverFails_collect "us-east-1" []
    threePages 3
  have hb := h.1
    [{ EventBuses := [busOf "1"], NextToken := some "A" },
     { EventBuses := [busOf "2"], NextToken := some "B" }]
    { EventBuses := [busOf "3"], NextToken := none } rfl (by decide) rfl
    (by intro p _ bus _ err herr; cases herr) (by decide)
  have hr := h.2 detailOf
    [{ Rules := [ruleOf "1"], NextToken := some "A" },
     { Rules := [ruleOf "2"], NextToken := some "B" }]
    { Rules := [ruleOf "3"], NextToken := none } rfl (by decide) rfl
    (by intro p _ r _; rfl)
    (by intro p _ r _ err herr; cases herr)
    (by intro p _ r _ err herr; cases herr) (by decide)
  ⟨⟨hb.1, hb.2.2⟩, ⟨hr.1, hr.2.2⟩⟩

/-- Claim C2 fails for `EventBridgeRule` and the absence-class code
`InvalidParameter`: in the scenario with the tag call failing with
`InvalidParameter`, the enumerator stops after the tag call and returns that
error and no item; in streaming mode nothing is delivered. -/
theorem rule_tag_invalid_parameter_counterexample :
    absenceClass invalidParameter = true ∧
    (EventBridgeRule scripted (none : Option (StreamSender Unit)) "us-east-1" 2
      (World.init { scenario with tags := fun _ => .error invalidParameter } ())).2.trace
      = [Event.call (Request.ListRules none) none,
         Event.call (Request.DescribeRule (some "1")) none,
         Event.call (Request.ListTagsForResource "arn:x:1") (some invalidParameter)] ∧
    (EventBridgeRule scripted (none : Option (StreamSender Unit)) "us-east-1" 2
      (World.init { scenario with tags := fun _ => .error invalidParameter } ())).1
      = some ([], some invalidParameter) ∧
    deliveries (EventBridgeRule scripted (some collect) "us-east-1" 2
      (World.init { scenario with tags := fun _ => .error invalidParameter } [])).2.trace
      = [] := by
  decide

/-- Claim C2, amended.  In a run in which nothing else fails, every item
whose tag call fails is still emitted, with an empty tag set, and the
enumerator returns a nil error: for `EventBridgeBus` when the tag call fails
with an absence-class code (`InvalidParameter`, `ResourceNotFoundException`,
`ValidationException`), for `EventBridgeRule` when it fails with
`ResourceNotFoundException` or `ValidationException`. -/
theorem tag_absence_gives_empty_tags (stream : Option (StreamSender τ))
    (hs : NeverFails stream) (region : String) (sink : τ) (s : Script) (fuel : Nat) :
    (∀ (pages : List ListEventBusesOutput) (last : ListEventBusesOutput),
      s.eventBuses = (pages ++ [last]).map Except.ok →
      (∀ p ∈ pages, p.NextToken ≠ none) → last.NextToken = none →
      (∀ p ∈ pages ++ [last], ∀ bus ∈ p.EventBuses, ∀ err,
        s.tags bus.Arn = .error err → absenceClass err = true) →
      pages.length < fuel →
      (EventBridgeBus scripted stream region fuel (World.init s sink)).1
        = some (returnedPart stream (busResources region s.tags (pages ++ [last])), none) ∧
      deliveries (EventBridgeBus scripted stream region fuel (World.init s sink)).2.trace
        = deliveredPart stream (busResources region s.tags (pages ++ [last])) ∧
      ∀ p ∈ pages ++ [last], ∀ bus ∈ p.EventBuses, ∀ err, s.tags bus.Arn = .error err →
        { Region := region, ARN := bus.Arn, Name := bus.Name,
          Description := Description.EventBridgeBusDescription bus [] }
          ∈ busResources region s.tags (pages ++ [last])) ∧
    (∀ (detail : Option String → DescribeRuleOutput)
      (pages : List ListRulesOutput) (last : ListRulesOutput),
      s.rules = (pages ++ [last]).map Except.ok →
      (∀ p ∈ pages, p.NextToken ≠ none) → last.NextToken = none →
      (∀ p ∈ pages ++ [last], ∀ r ∈ p.Rules, s.describe r.Name = .ok (detail r.Name)) →
      (∀ p ∈ pages ++ [last], ∀ r ∈ p.Rules, ∀ err,
        s.tags (detail r.Name).Arn = .error err →
          (isErr err "ResourceNotFoundException" || isErr err "ValidationException") = true) →
      (∀ p ∈ pages ++ [last], ∀ r ∈ p.Rules, ∀ err,
        s.targets r.Name = .error err → notFoundOrValidation err = true) →
      pages.length < fuel →
      (EventBridgeRule scripted stream region fuel (World.init s sink)).1
        = some (returnedPart stream
            (ruleResources region detail s.tags s.targets (pages ++ [last])), none) ∧
      deliveries (EventBridgeRule scripted stream region fuel (World.init s sink)).2.trace
        = deliveredPart stream
            (ruleResources region detail s.tags s.targets (pages ++ [last])) ∧
      ∀ p ∈ pages ++ [last], ∀ r ∈ p.Rules, ∀ err,
        s.tags (detail r.Name).Arn = .error err →
        { Region := region, ARN := (detail r.Name).Arn, Name := (detail r.Name).Name,
          Description := Description.EventBridgeRuleDescription (detail r.Name) []
            (targetsOrEmpty (s.targets r.Name)) }
          ∈ ruleResources region detail s.tags s.targets (pages ++ [last])) := by
  constructor
  · intro pages last hpages hcur hlast hitems hfuel
    obtain ⟨h1, h2, _⟩ := EventBridgeBus.bus_run_scripted stream hs region sink s fuel pages last
      hpages hcur hlast hitems hfuel
    refine ⟨h1, h2, ?_⟩
    intro p hp bus hbus err herr
    unfold busResources
    refine List.mem_flatMap.mpr ⟨p, hp, List.mem_map.mpr ⟨bus, hbus, ?_⟩⟩
    simp [busResource, herr, tagsOrEmpty]
  · intro detail pages last hpages hcur hlast hdesc htags htargets hfuel
    obtain ⟨h1, h2, _⟩ := EventBridgeRule.rule_run_scripted stream hs region sink s fuel detail
      pages last hpages hcur hlast hdesc htags htargets hfuel
    refine ⟨h1, h2, ?_⟩
    intro p hp r hr err herr
    unfold ruleResources
    refine List.mem_flatMap.mpr ⟨p, hp, List.mem_map.mpr ⟨r, hr, ?_⟩⟩
    simp [ruleResource, herr, tagsOrEmpty]

/-- The amended C2 at the end-to-end scenario of the spec: exactly one record
with ARN `arn:x:1`, empty tags and a nil error, from either enumerator. -/
theorem tag_absence_gives_empty_tags_witness :
    (EventBridgeBus scripted (none : Option (StreamSender Unit)) "us-east-1" 2
      (World.init scenario ())).1
      = some ([{ Region := "us-east-1", ARN := "arn:x:1", Name := "bus-1",
                 Description := Description.EventBridgeBusDescription (busOf "1") [] }],
              none) ∧
    (EventBridgeRule scripted (none : Option (StreamSender Unit)) "us-east-1" 2
      (World.init scenario ())).1
      = some ([{ Region := "us-east-1", ARN := "arn:x:1", Name := "1",
                 Description := Description.EventBridgeRuleDescription (detailOf (some "1"))
                   [] [{ Id := "t", Arn := "arn:x:target" }] }],
              none) :=
  have h := tag_absence_gives_empty_tags (none : Option (StreamSender Unit))
    neverFails_none "us-east-1" () scenario 2
  have hb := h.1 [{ EventBuses := [busOf "1"], NextToken := some "A" }]
    { EventBuses := [], NextToken := none } rfl (by decide) rfl
    (by
      intro p _ bus _ err herr
      have : err = resourceNotFound := by injection herr with h; exact h.symm
      rw [this]; decide)
    (by decide)
  have hr := h.2 detailOf [{ Rules := [ruleOf "1"], NextToken := some "A" }]
    { Rules := [], NextToken := none } rfl (by decide) rfl
    (by intro p _ r _; rfl)
    (by
      intro p _ r _ err herr
      have : err = resourceNotFound := by injection herr with h; exact h.symm
      rw [this]; decide)
    (by intro p _ r _ err herr; cases herr) (by decide)
  ⟨hb.1, hr.1⟩

/-- Claim C10 fails: in `EventBridgeRule` a `DescribeRule` call that fails
with `ResourceNotFoundException` aborts the enumeration with that error, and
so does a `ListTargetsByRule` call that fails with `InvalidParameter`. -/
theorem rule_secondary_calls_counterexample :
    absenceClass resourceNotFound = true ∧ absenceClass invalidParameter = true ∧
    (EventBridgeRule scripted (none : Option (StreamSender Unit)) "us-east-1" 2
      (World.init { scenario with describe := fun _ => .error resourceNotFound } ())).1
      = some ([], some resourceNotFound) ∧
    (EventBridgeRule scripted (none : Option (StreamSender Unit)) "us-east-1" 2
      (World.init { scenario with targets := fun _ => .error invalidParameter } ())).1
      = some ([], some invalidParameter) := by
  decide

theorem RuleAborts.rule_nil (P : Err → Prop) : RuleAborts [] P :=
  Or.inl (by simp)

theorem RuleAborts.rule_single {ev : Event} {P : Err → Prop}
    (h : ∀ e, ev.ruleFatal = some e → P e) : RuleAborts [ev] P := by
  cases hf : ev.ruleFatal with
  | none => exact Or.inl (by simpa using hf)
  | some e => exact Or.inr ⟨[], ev, e, by simp, by simp, hf, h e hf⟩

theorem RuleAborts.rule_cons {ev : Event} {rest : List Event} {P : Err → Prop}
    (hev : ev.ruleFatal = none) (h : RuleAborts rest P) : RuleAborts (ev :: rest) P := by
  rcases h with h | ⟨pre, last, e, hrest, hpre, hlast, hP⟩
  · left
    intro x hx
    rcases List.mem_cons.mp hx with rfl | hx
    · exact hev
    · exact h x hx
  · right
    refine ⟨ev :: pre, last, e, by simp [hrest], ?_, hlast, hP⟩
    intro x hx
    rcases List.mem_cons.mp hx with rfl | hx
    · exact hev
    · exact hpre x hx

theorem RuleAborts.rule_mono {added : List Event} {P Q : Err → Prop}
    (hPQ : ∀ e, P e → Q e) (h : RuleAborts added P) : RuleAborts added Q := by
  rcases h with h | ⟨pre, last, e, hrest, hpre, hlast, hP⟩
  · exact Or.inl h
  · exact Or.inr ⟨pre, last, e, hrest, hpre, hlast, hPQ e hP⟩

theorem RuleAborts.rule_harmless {added : List Event}
    (h : RuleAborts added (fun x => (none : Option Err) = some x)) :
    ∀ ev ∈ added, ev.ruleFatal = none := by
  rcases h with h | ⟨_, _, _, _, _, _, hP⟩
  · exact h
  · simp at hP

theorem RuleAborts.rule_append {a b : List Event} {P : Err → Prop}
    (ha : ∀ ev ∈ a, ev.ruleFatal = none) (hb : RuleAborts b P) : RuleAborts (a ++ b) P := by
  induction a with
  | nil => simpa using hb
  | cons x xs ih =>
    exact RuleAborts.rule_cons (ha x (by simp)) (ih (fun ev hev => ha ev (by simp [hev])))

theorem RuleAborts.rule_of_mem {added : List Event} {P : Err → Prop} (h : RuleAborts added P)
    {ev : Event} {err : Err} (hmem : ev ∈ added) (hfatal : ev.ruleFatal = some err) :
    P err := by
  rcases h with h | ⟨pre, last, e, hadd, hpre, hlast, hP⟩
  · have := h ev hmem
    rw [hfatal] at this
    simp at this
  · rw [hadd] at hmem
    rcases List.mem_append.mp hmem with hin | hin
    · have := hpre ev hin
      rw [hfatal] at this
      simp at this
    · simp only [List.mem_singleton] at hin
      subst hin
      rw [hfatal] at hlast
      injection hlast with hlast
      rw [hlast]
      exact hP

theorem emit_ruleAborts (stream : Option (StreamSender τ)) (r : Resource)
    (values : List Resource) (w : World σ τ) :
    ∃ added, (emit stream r values w).2.2.trace = w.trace ++ added ∧
      RuleAborts added (fun x => (emit stream r values w).1 = some x) := by
  cases stream with
  | none => exact ⟨[], by simp [emit], RuleAborts.rule_nil _⟩
  | some send =>
    refine ⟨[Event.deliver r (send r w.sink).1], ?_, ?_⟩
    · simp only [emit, deliver]
      cases (send r w.sink).1 <;> rfl
    · apply RuleAborts.rule_single
      intro e he
      simp only [emit, deliver]
      simp only [Event.ruleFatal] at he
      rw [he]

theorem ruleFatal_tags_error {arn : String} {err e : Err}
    (h : (Event.call (Request.ListTagsForResource arn) (some err)).ruleFatal = some e) :
    e = err := by
  simp only [Event.ruleFatal] at h
  split at h <;> simp_all

theorem ruleFatal_targets_error {rule : Option String} {err e : Err}
    (h : (Event.call (Request.ListTargetsByRule rule) (some err)).ruleFatal = some e) :
    e = err := by
  simp only [Event.ruleFatal] at h
  split at h <;> simp_all

theorem rule_tagsOutput_ok_ruleFatal {res : Except Err ListTagsForResourceOutput}
    {out : ListTagsForResourceOutput} (arn : String)
    (h : EventBridgeRule.tagsOutput res = .ok out) :
    (Event.call (Request.ListTagsForResource arn) (errOf res)).ruleFatal = none := by
  unfold EventBridgeRule.tagsOutput at h
  cases res with
  | ok o => rfl
  | error e =>
    simp only at h
    split at h
    · simp at h
    · rename_i hc
      have : notFoundOrValidation e = true := by
        unfold notFoundOrValidation
        cases h2 : isErr e "ResourceNotFoundException" <;>
          cases h3 : isErr e "ValidationException" <;> simp_all
      simp [errOf, Event.ruleFatal, this]

theorem rule_targets_ok_ruleFatal {res : Except Err ListTargetsByRuleOutput}
    {out : ListTargetsByRuleOutput} (rule : Option String)
    (h : EventBridgeRule.targets res = .ok out) :
    (Event.call (Request.ListTargetsByRule rule) (errOf res)).ruleFatal = none := by
  unfold EventBridgeRule.targets at h
  cases res with
  | ok o => rfl
  | error e =>
    simp only at h
    split at h
    · simp at h
    · rename_i hc
      have : notFoundOrValidation e = true := by
        unfold notFoundOrValidation
        cases h2 : isErr e "ResourceNotFoundException" <;>
          cases h3 : isErr e "ValidationException" <;> simp_all
      simp [errOf, Event.ruleFatal, this]

theorem EventBridgeRule.rules_ruleAborts (client : Client σ)
    (stream : Option (StreamSender τ)) (region : String) (items : List Rule) :
    ∀ (values : List Resource) (w : World σ τ),
      ∃ added, (EventBridgeRule.rules client stream region items values w).2.2.trace
          = w.trace ++ added ∧
        RuleAborts added
          (fun x => (EventBridgeRule.rules client stream region items values w).1 = some x) := by
  induction items with
  | nil => intro values w; exact ⟨[], by simp [EventBridgeRule.rules], RuleAborts.rule_nil _⟩
  | cons listRule rest ih =>
    intro values w
    simp only [EventBridgeRule.rules]
    rcases hd : invoke (client.DescribeRule listRule.Name)
      (Request.DescribeRule listRule.Name) w with ⟨_ | rule, w1⟩
    · rename_i err
      refine ⟨[Event.call (Request.DescribeRule listRule.Name) (some err)],
        invoke_trace hd, RuleAborts.rule_single ?_⟩
      intro e he
      simp only [Event.ruleFatal, Option.some.injEq] at he
      subst he
      rfl
    · have h1 : w1.trace = w.trace ++ [Event.call (Request.DescribeRule listRule.Name) none] :=
        invoke_trace hd
      have hc1 : (Event.call (Request.DescribeRule listRule.Name) none).ruleFatal = none := rfl
      simp only
      rcases ht : invoke (client.ListTagsForResource rule.Arn)
        (Request.ListTagsForResource rule.Arn) w1 with ⟨tagsRes, w2⟩
      have h2 := invoke_trace ht
      simp only
      cases htag : EventBridgeRule.tagsOutput tagsRes with
      | error err =>
        simp only
        refine ⟨[Event.call (Request.DescribeRule listRule.Name) none,
            Event.call (Request.ListTagsForResource rule.Arn) (errOf tagsRes)],
          by rw [h2, h1]; simp, RuleAborts.rule_cons hc1 (RuleAborts.rule_single ?_)⟩
        intro e he
        rw [rule_tagsOutput_error htag] at he
        rw [ruleFatal_tags_error he]
      | ok tagsOutput =>
        have hc2 := rule_tagsOutput_ok_ruleFatal rule.Arn htag
        simp only
        rcases hg : invoke (client.ListTargetsByRule listRule.Name)
          (Request.ListTargetsByRule listRule.Name) w2 with ⟨targetsRes, w3⟩
        have h3 := invoke_trace hg
        simp only
        cases htar : EventBridgeRule.targets targetsRes with
        | error err =>
          simp only
          refine ⟨[Event.call (Request.DescribeRule listRule.Name) none,
              Event.call (Request.ListTagsForResource rule.Arn) (errOf tagsRes),
              Event.call (Request.ListTargetsByRule listRule.Name) (errOf targetsRes)],
            by rw [h3, h2, h1]; simp,
            RuleAborts.rule_cons hc1 (RuleAborts.rule_cons hc2 (RuleAborts.rule_single ?_))⟩
          intro e he
          rw [rule_targets_error htar] at he
          rw [ruleFatal_targets_error he]
        | ok targets =>
          have hc3 := rule_targets_ok_ruleFatal listRule.Name htar
          simp only
          obtain ⟨addedE, htE, hE⟩ := emit_ruleAborts stream
            { Region := region, ARN := rule.Arn, Name := rule.Name,
              Description := Description.EventBridgeRuleDescription rule
                tagsOutput.Tags targets.Targets } values w3
          rcases hem : emit stream
            { Region := region, ARN := rule.Arn, Name := rule.Name,
              Description := Description.EventBridgeRuleDescription rule
                tagsOutput.Tags targets.Targets } values w3
            with ⟨_ | err, values1, w4⟩
          · rw [hem] at htE hE
            simp only at htE hE ⊢
            obtain ⟨addedR, htR, hR⟩ := ih values1 w4
            refine ⟨Event.call (Request.DescribeRule listRule.Name) none ::
                Event.call (Request.ListTagsForResource rule.Arn) (errOf tagsRes) ::
                Event.call (Request.ListTargetsByRule listRule.Name) (errOf targetsRes) ::
                (addedE ++ addedR), ?_,
              RuleAborts.rule_cons hc1 (RuleAborts.rule_cons hc2 (RuleAborts.rule_cons hc3
                (RuleAborts.rule_append hE.rule_harmless hR)))⟩
            rw [htR, htE, h3, h2, h1]
            simp
          · rw [hem] at htE hE
            simp only at htE hE ⊢
            refine ⟨Event.call (Request.DescribeRule listRule.Name) none ::
                Event.call (Request.ListTagsForResource rule.Arn) (errOf tagsRes) ::
                Event.call (Request.ListTargetsByRule listRule.Name) (errOf targetsRes) ::
                addedE, ?_,
              RuleAborts.rule_cons hc1 (RuleAborts.rule_cons hc2 (RuleAborts.rule_cons hc3 hE))⟩
            rw [htE, h3, h2, h1]
            simp

theorem EventBridgeRule.fn_ruleAborts (client : Client σ) (stream : Option (StreamSender τ))
    (region : String) (prevToken : Option String) (s : List Resource × World σ τ) :
    ∃ added, (EventBridgeRule.fn client stream region prevToken s).2.2.trace
        = s.2.trace ++ added ∧
      RuleAborts added
        (fun x => (EventBridgeRule.fn client stream region prevToken s).1.2 = some x) := by
  simp only [EventBridgeRule.fn]
  rcases hl : invoke (client.ListRules prevToken) (Request.ListRules prevToken) s.2
    with ⟨_ | out, w1⟩
  · rename_i err
    refine ⟨[Event.call (Request.ListRules prevToken) (some err)], invoke_trace hl,
      RuleAborts.rule_single ?_⟩
    intro e he
    simp only [Event.ruleFatal, Option.some.injEq] at he
    subst he
    rfl
  · have h1 : w1.trace = s.2.trace ++ [Event.call (Request.ListRules prevToken) none] :=
      invoke_trace hl
    have hc1 : (Event.call (Request.ListRules prevToken) none).ruleFatal = none := rfl
    simp only
    obtain ⟨addedR, htR, hR⟩ :=
      EventBridgeRule.rules_ruleAborts client stream region out.Rules s.1 w1
    rcases hr : EventBridgeRule.rules client stream region out.Rules s.1 w1
      with ⟨_ | err, values1, w2⟩
    · rw [hr] at htR hR
      simp only at htR hR ⊢
      refine ⟨Event.call (Request.ListRules prevToken) none :: addedR, ?_,
        RuleAborts.rule_cons hc1 (Or.inl hR.rule_harmless)⟩
      rw [htR, h1]; simp
    · rw [hr] at htR hR
      simp only at htR hR ⊢
      refine ⟨Event.call (Request.ListRules prevToken) none :: addedR, ?_,
        RuleAborts.rule_cons hc1 hR⟩
      rw [htR, h1]; simp

theorem EventBridgeRule.paginate_ruleAborts (client : Client σ)
    (stream : Option (StreamSender τ)) (region : String) (fuel : Nat) :
    ∀ (prevToken : Option String) (s : List Resource × World σ τ),
      ∃ added,
        (PaginateRetrieveAll.loop (EventBridgeRule.fn client stream region) fuel prevToken
          s).2.2.trace = s.2.trace ++ added ∧
        RuleAborts added
          (fun x => (PaginateRetrieveAll.loop (EventBridgeRule.fn client stream region) fuel
            prevToken s).1 = some (some x)) := by
  induction fuel with
  | zero => intro prevToken s; exact ⟨[], by simp [PaginateRetrieveAll.loop], RuleAborts.rule_nil _⟩
  | succ fuel ih =>
    intro prevToken s
    simp only [PaginateRetrieveAll.loop]
    obtain ⟨addedF, htF, hF⟩ := EventBridgeRule.fn_ruleAborts client stream region prevToken s
    rcases hf : EventBridgeRule.fn client stream region prevToken s
      with ⟨⟨tok, _ | err⟩, s1⟩
    · rw [hf] at htF hF
      simp only at htF hF
      cases tok with
      | none =>
        simp only
        exact ⟨addedF, htF, Or.inl hF.rule_harmless⟩
      | some nextToken =>
        simp only
        obtain ⟨addedR, htR, hR⟩ := ih (some nextToken) s1
        refine ⟨addedF ++ addedR, ?_, RuleAborts.rule_append hF.rule_harmless hR⟩
        rw [htR, htF]; simp
    · rw [hf] at htF hF
      simp only at htF hF ⊢
      refine ⟨addedF, htF, hF.rule_mono ?_⟩
      intro e he
      simp only [Option.some.injEq] at he
      rw [he]

theorem EventBridgeRule.ruleAborts (client : Client σ) (stream : Option (StreamSender τ))
    (region : String) (fuel : Nat) (upstream : σ) (sink : τ) :
    RuleAborts (EventBridgeRule client stream region fuel (World.init upstream sink)).2.trace
      (fun x => (EventBridgeRule client stream region fuel (World.init upstream sink)).1
        = some ([], some x)) := by
  obtain ⟨added, ht, hA⟩ :=
    EventBridgeRule.paginate_ruleAborts client stream region fuel none
      ([], World.init upstream sink)
  simp only [EventBridgeRule, PaginateRetrieveAll]
  rcases hp : PaginateRetrieveAll.loop (EventBridgeRule.fn client stream region) fuel none
    ([], World.init upstream sink) with ⟨_ | _ | err, s⟩
  · rw [hp] at ht hA
    simp only [World.init, List.nil_append] at ht
    simp only [ht]
    exact hA.rule_mono (by intro e he; simp at he)
  · rw [hp] at ht hA
    simp only [World.init, List.nil_append] at ht
    simp only [ht]
    exact hA.rule_mono (by intro e he; simp at he)
  · rw [hp] at ht hA
    simp only [World.init, List.nil_append] at ht
    simp only [ht]
    refine hA.rule_mono ?_
    intro e he
    simp only [Option.some.injEq] at he
    simp [he]

theorem invalidParameter_not_tolerated {err : Err}
    (h : isErr err "InvalidParameter" = true) : notFoundOrValidation err = false := by
  unfold isErr at h
  have hc : err.code = some "InvalidParameter" := by simpa using h
  simp only [notFoundOrValidation, isErr, hc]
  decide

/-- Claim C10, amended.  In `EventBridgeRule`, for every provider, both modes
and any fuel: a `DescribeRule` call that fails, whatever its code, makes the
enumerator return no items together with that error, and so does a tag call
or a targets call that fails with `InvalidParameter` or with any other code
than `ResourceNotFoundException` and `ValidationException`.  The tag call and
the targets call are tolerated, each independently of the other, when they
fail with `ResourceNotFoundException` or `ValidationException`: if every
`DescribeRule` call succeeds and the tag and targets calls fail with these
codes only, the enumerator processes all items and pages, returns a nil
error, and emits one record per listed rule, in which the tag set is empty
if the tag call failed and the answer's otherwise, and likewise the
targets. -/
theorem rule_secondary_calls_policy (client : Client σ) (stream : Option (StreamSender τ))
    (region : String) (fuel : Nat) (upstream : σ) (sink : τ) :
    (∀ name err, Event.call (Request.DescribeRule name) (some err)
        ∈ (EventBridgeRule client stream region fuel (World.init upstream sink)).2.trace →
      (EventBridgeRule client stream region fuel (World.init upstream sink)).1
        = some ([], some err)) ∧
    (∀ arn err, Event.call (Request.ListTagsForResource arn) (some err)
        ∈ (EventBridgeRule client stream region fuel (World.init upstream sink)).2.trace →
      (isErr err "InvalidParameter" = true ∨
        (isErr err "ResourceNotFoundException" || isErr err "ValidationException") = false) →
      (EventBridgeRule client stream region fuel (World.init upstream sink)).1
        = some ([], some err)) ∧
    (∀ rule err, Event.call (Request.ListTargetsByRule rule) (some err)
        ∈ (EventBridgeRule client stream region fuel (World.init upstream sink)).2.trace →
      (isErr err "InvalidParameter" = true ∨
        (isErr err "ResourceNotFoundException" || isErr err "ValidationException") = false) →
      (EventBridgeRule client stream region fuel (World.init upstream sink)).1
        = some ([], some err)) ∧
    (∀ (s : Script) (detail : Option String → DescribeRuleOutput)
      (pages : List ListRulesOutput) (last : ListRulesOutput),
      NeverFails stream →
      s.rules = (pages ++ [last]).map Except.ok →
      (∀ p ∈ pages, p.NextToken ≠ none) → last.NextToken = none →
      (∀ p ∈ pages ++ [last], ∀ r ∈ p.Rules, s.describe r.Name = .ok (detail r.Name)) →
      (∀ p ∈ pages ++ [last], ∀ r ∈ p.Rules, ∀ err,
        s.tags (detail r.Name).Arn = .error err →
          (isErr err "ResourceNotFoundException" || isErr err "ValidationException") = true) →
      (∀ p ∈ pages ++ [last], ∀ r ∈ p.Rules, ∀ err,
        s.targets r.Name = .error err →
          (isErr err "ResourceNotFoundException" || isErr err "ValidationException") = true) →
      pages.length < fuel →
      ∃ emitted,
        (EventBridgeRule scripted stream region fuel (World.init s sink)).1
          = some (returnedPart stream emitted, none) ∧
        deliveries (EventBridgeRule scripted stream region fuel (World.init s sink)).2.trace
          = deliveredPart stream emitted ∧
        emitted.length = ((pages ++ [last]).map (fun p => p.Rules.length)).sum ∧
        ∀ p ∈ pages ++ [last], ∀ r ∈ p.Rules, ∃ tags targets,
          { Region := region, ARN := (detail r.Name).Arn, Name := (detail r.Name).Name,
            Description :=
              Description.EventBridgeRuleDescription (detail r.Name) tags targets }
            ∈ emitted ∧
          (∀ err, s.tags (detail r.Name).Arn = .error err → tags = []) ∧
          (∀ out, s.tags (detail r.Name).Arn = .ok out → tags = out.Tags) ∧
          (∀ err, s.targets r.Name = .error err → targets = []) ∧
          (∀ out, s.targets r.Name = .ok out → targets = out.Targets)) := by
  have hA := EventBridgeRule.ruleAborts client stream region fuel upstream sink
  have hcode : ∀ err : Err,
      (isErr err "InvalidParameter" = true ∨
        (isErr err "ResourceNotFoundException" || isErr err "ValidationException") = false) →
      notFoundOrValidation err = false := by
    intro err h
    rcases h with h | h
    · exact invalidParameter_not_tolerated h
    · exact h
  refine ⟨?_, ?_, ?_, ?_⟩
  · intro name err hmem
    exact hA.rule_of_mem hmem rfl
  · intro arn err hmem hc
    refine hA.rule_of_mem hmem ?_
    simp [Event.ruleFatal, hcode err hc]
  · intro rule err hmem hc
    refine hA.rule_of_mem hmem ?_
    simp [Event.ruleFatal, hcode err hc]
  · intro s detail pages last hs hpages hcur hlast hdesc htags htargets hfuel
    obtain ⟨h1, h2, _⟩ := EventBridgeRule.rule_run_scripted stream hs region sink s fuel
      detail pages last hpages hcur hlast hdesc htags htargets hfuel
    refine ⟨_, h1, h2, ?_, ?_⟩
    · simp [List.length_flatMap, Function.comp_def]
    · intro p hp r hr
      refine ⟨tagsOrEmpty (s.tags (detail r.Name).Arn), targetsOrEmpty (s.targets r.Name),
        List.mem_flatMap.mpr ⟨p, hp, List.mem_map.mpr ⟨r, hr, rfl⟩⟩, ?_, ?_, ?_, ?_⟩
      · intro err herr; simp [herr, tagsOrEmpty]
      · intro out herr; simp [herr, tagsOrEmpty]
      · intro err herr; simp [herr, targetsOrEmpty]
      · intro out herr; simp [herr, targetsOrEmpty]

/-- The amended C10 at a detail call that fails with `ValidationException`, a
tag call that fails with `InvalidParameter`, a targets call that fails with
`AccessDeniedException`, and at a rule whose tag call fails with
`ValidationException` and whose targets call fails with
`ResourceNotFoundException`. -/
theorem rule_secondary_calls_policy_witness :
    (EventBridgeRule scripted (none : Option (StreamSender Unit)) "us-east-1" 2
      (World.init { scenario with describe := fun _ => .error validationFailed } ())).1
      = some ([], some validationFailed) ∧
    (EventBridgeRule scripted (none : Option (StreamSender Unit)) "us-east-1" 2
      (World.init { scenario with tags := fun _ => .error invalidParameter } ())).1
      = some ([], some invalidParameter) ∧
    (EventBridgeRule scripted (none : Option (StreamSender Unit)) "us-east-1" 2
      (World.init { scenario with targets := fun _ => .error accessDenied } ())).1
      = some ([], some accessDenied) ∧
    ∃ emitted,
      (EventBridgeRule scripted (none : Option (StreamSender Unit)) "us-east-1" 2
        (World.init bothEnrichmentsFail ())).1 = some (emitted, none) ∧
      deliveries (EventBridgeRule scripted (none : Option (StreamSender Unit)) "us-east-1" 2
        (World.init bothEnrichmentsFail ())).2.trace = [] ∧
      emitted.length = 1 ∧
      ∀ p ∈ [({ Rules := [ruleOf "1"], NextToken := some "A" } : ListRulesOutput),
          { Rules := [], NextToken := none }], ∀ r ∈ p.Rules, ∃ tags targets,
        { Region := "us-east-1", ARN := (detailOf r.Name).Arn, Name := (detailOf r.Name).Name,
          Description := Description.EventBridgeRuleDescription (detailOf r.Name) tags targets }
          ∈ emitted ∧
        (∀ err, bothEnrichmentsFail.tags (detailOf r.Name).Arn = .error err → tags = []) ∧
        (∀ out, bothEnrichmentsFail.tags (detailOf r.Name).Arn = .ok out → tags = out.Tags) ∧
        (∀ err, bothEnrichmentsFail.targets r.Name = .error err → targets = []) ∧
        (∀ out, bothEnrichmentsFail.targets r.Name = .ok out → targets = out.Targets) :=
  ⟨(rule_secondary_calls_policy scripted (none : Option (StreamSender Unit)) "us-east-1" 2
      { scenario with describe := fun _ => .error validationFailed } ()).1
      (some "1") validationFailed (by decide),
    (rule_secondary_calls_policy scripted (none : Option (StreamSender Unit)) "us-east-1" 2
      { scenario with tags := fun _ => .error invalidParameter } ()).2.1
      "arn:x:1" invalidParameter (by decide) (Or.inl (by decide)),
    (rule_secondary_calls_policy scripted (none : Option (StreamSender Unit)) "us-east-1" 2
      { scenario with targets := fun _ => .error accessDenied } ()).2.2.1
      (some "1") accessDenied (by decide) (Or.inr (by decide)),
    (rule_secondary_calls_policy scripted (none : Option (StreamSender Unit)) "us-east-1" 2
      bothEnrichmentsFail ()).2.2.2 bothEnrichmentsFail detailOf
      [{ Rules := [ruleOf "1"], NextToken := some "A" }] { Rules := [], NextToken := none }
      neverFails_none rfl (by decide) rfl (by intro p _ r _; rfl)
      (by
        intro p _ r _ err herr
        have : err = validationFailed := by injection herr with h; exact h.symm
        rw [this]; decide)
      (by
        intro p _ r _ err herr
        have : err = resourceNotFound := by injection herr with h; exact h.symm
        rw [this]; decide)
      (by decide)⟩

/-- Claim C3 fails when the provider fails after the first page: with page 1
holding one bus and the list call for page 2 failing with
`AccessDeniedException`, the batch run returns no items, while the streaming
run has delivered the bus of page 1. -/
theorem streaming_batch_counterexample :
    (EventBridgeBus scripted (none : Option (StreamSender (List Resource))) "us-east-1" 2
      (World.init (secondPageFails accessDenied) [])).1 = some ([], some accessDenied) ∧
    deliveries (EventBridgeBus scripted (some collect) "us-east-1" 2
      (World.init (secondPageFails accessDenied) [])).2.trace
      = [busResource "us-east-1" threePages.tags (busOf "1")] ∧
    (EventBridgeBus scripted (none : Option (StreamSender (List Resource))) "us-east-1" 2
      (World.init (secondPageFails accessDenied) [])).1.map Prod.fst
      ≠ some (deliveries (EventBridgeBus scripted (some collect) "us-east-1" 2
        (World.init (secondPageFails accessDenied) [])).2.trace) := by
  decide

/-- Claim C3, amended.  For the same provider and a stream sender that never
fails, a streaming run and a batch run of an enumerator return the same
error (and run out of fuel together), the streaming run returns an empty
list, both issue the same provider calls in the same order, and whenever the
batch run returns a nil error (and, for `EventBridgeBus`, none of its
`ListEventBuses` calls failed) the sequence of records delivered to the
stream sender equals the list the batch run returns. -/
theorem streaming_matches_batch (which : Enumerator) (client : Client σ)
    (send : StreamSender τ) (hs : ∀ r t, (send r t).1 = none) (region : String)
    (fuel : Nat) (upstream : σ) (sink : τ) :
    (which.run client (some send) region fuel (World.init upstream sink)).1.map Prod.snd
      = (which.run client none region fuel (World.init upstream sink)).1.map Prod.snd ∧
    (∀ vals e, (which.run client (some send) region fuel (World.init upstream sink)).1
      = some (vals, e) → vals = []) ∧
    calls (which.run client (some send) region fuel (World.init upstream sink)).2.trace
      = (which.run client none region fuel (World.init upstream sink)).2.trace ∧
    (∀ vals, (which.run client none region fuel (World.init upstream sink)).1
        = some (vals, none) →
      (which = Enumerator.EventBridgeBus →
        ∀ ev ∈ (which.run client none region fuel (World.init upstream sink)).2.trace,
          ev.failedListEventBuses = false) →
      deliveries (which.run client (some send) region fuel (World.init upstream sink)).2.trace
        = vals) := by
  cases which with
  | EventBridgeBus =>
    obtain ⟨A, ⟨a1, a2, _⟩, h2, h3, h4⟩ := EventBridgeBus.loop_inStep client send hs region
      fuel { Limit := some 100, NextToken := none } [] (World.init upstream sink)
      (World.init upstream sink) rfl
    simp only [World.init, List.nil_append] at a1 a2
    refine ⟨h2, h3, ?_, ?_⟩
    · show calls (EventBridgeBus.loop client (some send) region fuel _ [] _).2.trace
        = (EventBridgeBus.loop client none region fuel _ [] _).2.trace
      simp only [World.init]
      rw [a1, a2]
    · intro vals hv hfail
      have hfail := hfail rfl
      have hA : ∀ ev ∈ A, ev.failedListEventBuses = false := by
        intro ev hev
        cases ev with
        | deliver r e => rfl
        | call req e =>
          apply hfail
          show Event.call req e ∈ (EventBridgeBus.loop client none region fuel _ [] _).2.trace
          simp only [World.init]
          rw [a2]
          exact mem_calls hev
      have := h4 vals hv hA
      show deliveries (EventBridgeBus.loop client (some send) region fuel _ [] _).2.trace = vals
      simp only [World.init]
      rw [a1, this]
      simp
  | EventBridgeRule =>
    obtain ⟨A, ⟨a1, a2, _⟩, h2, h3, h4⟩ := EventBridgeRule.paginate_inStep client send hs
      region fuel none [] (World.init upstream sink) (World.init upstream sink) rfl
    simp only [World.init, List.nil_append] at a1 a2
    simp only [Enumerator.run, EventBridgeRule, PaginateRetrieveAll, World.init]
    rcases hps : PaginateRetrieveAll.loop (EventBridgeRule.fn client (some send) region) fuel
      none ([], { upstream := upstream, sink := sink, trace := [] }) with ⟨rs, vs, ws⟩
    rcases hpb : PaginateRetrieveAll.loop (EventBridgeRule.fn client none region) fuel
      none ([], { upstream := upstream, sink := sink, trace := [] }) with ⟨rb, vb, wb⟩
    simp only [World.init, hps, hpb] at a1 a2 h2 h3 h4
    subst h2 h3
    rcases rs with _ | _ | err
    · simp [a1, a2]
    · refine ⟨rfl, ?_, by simp [a1, a2], ?_⟩
      · intro vals e hv
        simp only [Option.some.injEq, Prod.mk.injEq] at hv
        exact hv.1.symm
      · intro vals hv _
        simp only [Option.some.injEq, Prod.mk.injEq, and_true] at hv
        rw [← hv, h4 rfl, a1]
        simp
    · refine ⟨rfl, ?_, by simp [a1, a2], ?_⟩
      · intro vals e hv
        simp only [Option.some.injEq, Prod.mk.injEq] at hv
        exact hv.1.symm
      · intro vals hv
        simp at hv

/-- The amended C3 at the three-page script with a collecting stream
sender. -/
theorem streaming_matches_batch_witness :
    (∀ r t, (collect r t).1 = none) ∧
    deliveries (Enumerator.EventBridgeBus.run scripted (some collect) "us-east-1" 3
      (World.init threePages [])).2.trace
      = [busResource "us-east-1" threePages.tags (busOf "1"),
         busResource "us-east-1" threePages.tags (busOf "2"),
         busResource "us-east-1" threePages.tags (busOf "3")] ∧
    deliveries (Enumerator.EventBridgeRule.run scripted (some collect) "us-east-1" 3
      (World.init threePages [])).2.trace
      = [ruleResource "us-east-1" detailOf threePages.tags threePages.targets (ruleOf "1"),
         ruleResource "us-east-1" detailOf threePages.tags threePages.targets (ruleOf "2"),
         ruleResource "us-east-1" detailOf threePages.tags threePages.targets (ruleOf "3")] :=
  ⟨fun _ _ => rfl,
    (streaming_matches_batch Enumerator.EventBridgeBus scripted collect (fun _ _ => rfl)
      "us-east-1" 3 threePages []).2.2.2 _ (by decide) (by intro _; decide),
    (streaming_matches_batch Enumerator.EventBridgeRule scripted collect (fun _ _ => rfl)
      "us-east-1" 3 threePages []).2.2.2 _ (by decide) (by intro h; cases h)⟩

/-- Claim C5 at a list call for page 2 and at a tag call that fail with
`AccessDeniedException`. -/
theorem fatal_upstream_error_is_returned_witness :
    (Enumerator.EventBridgeBus.run scripted (some collect) "us-east-1" 2
      (World.init (secondPageFails accessDenied) [])).1 = some ([], some accessDenied) ∧
    (Enumerator.EventBridgeRule.run scripted (none : Option (StreamSender Unit)) "us-east-1" 2
      (World.init { scenario with tags := fun _ => .error accessDenied } ())).1
      = some ([], some accessDenied) :=
  ⟨fatal_upstream_error_is_returned Enumerator.EventBridgeBus scripted (some collect)
      "us-east-1" 2 (secondPageFails accessDenied) []
      (Request.ListEventBuses { Limit := some 100, NextToken := some "A" }) accessDenied
      (by decide) (by decide),
    fatal_upstream_error_is_returned Enumerator.EventBridgeRule scripted
      (none : Option (StreamSender Unit)) "us-east-1" 2
      { scenario with tags := fun _ => .error accessDenied } ()
      (Request.ListTagsForResource "arn:x:1") accessDenied (by decide) (by decide)⟩

/-- Claim C6 at a stream sender that fails on its second call
(`EventBridgeRule`) and on its first call (`EventBridgeBus`). -/
theorem sink_error_aborts_witness :
    (deliveries (Enumerator.EventBridgeRule.run scripted (some (failAt 2 sinkClosed))
      "us-east-1" 3 (World.init threePages 0)).2.trace).length = 2 ∧
    (Enumerator.EventBridgeRule.run scripted (some (failAt 2 sinkClosed)) "us-east-1" 3
      (World.init threePages 0)).1 = some ([], some sinkClosed) ∧
    (deliveries (Enumerator.EventBridgeBus.run scripted (some (failAt 1 sinkClosed))
      "us-east-1" 3 (World.init threePages 0)).2.trace).length = 1 ∧
    (Enumerator.EventBridgeBus.run scripted (some (failAt 1 sinkClosed)) "us-east-1" 3
      (World.init threePages 0)).1 = some ([], some sinkClosed) :=
  have hr := sink_error_aborts Enumerator.EventBridgeRule scripted (failAt 2 sinkClosed)
    "us-east-1" 3 threePages 0
    [Event.call (Request.ListRules none) none,
     Event.call (Request.DescribeRule (some "1")) none,
     Event.call (Request.ListTagsForResource "arn:x:1") none,
     Event.call (Request.ListTargetsByRule (some "1")) none,
     Event.deliver (ruleResource "us-east-1" detailOf threePages.tags threePages.targets
       (ruleOf "1")) none,
     Event.call (Request.ListRules (some "A")) none,
     Event.call (Request.DescribeRule (some "2")) none,
     Event.call (Request.ListTagsForResource "arn:x:2") none,
     Event.call (Request.ListTargetsByRule (some "2")) none]
    []
    (ruleResource "us-east-1" detailOf threePages.tags threePages.targets (ruleOf "2"))
    sinkClosed (by decide)
  have hb := sink_error_aborts Enumerator.EventBridgeBus scripted (failAt 1 sinkClosed)
    "us-east-1" 3 threePages 0
    [Event.call (Request.ListEventBuses { Limit := some 100, NextToken := none }) none,
     Event.call (Request.ListTagsForResource "arn:x:1") none]
    []
    (busResource "us-east-1" threePages.tags (busOf "1"))
    sinkClosed (by decide)
  ⟨hr.2.1, hr.2.2, hb.2.1, hb.2.2⟩

end Describer

/-! ## Properties of GetConfig -/

namespace Provider

open Describer (Err)

variable {ε ρ : Type}

theorem externalIDs_append (a b : List (List (LoadOption ρ))) :
    externalIDs (a ++ b) = externalIDs a ++ externalIDs b := by
  induction a with
  | nil => rfl
  | cons x xs ih => simp [externalIDs, ih]

theorem externalIDs_static (awsAccessKey awsSecretKey awsSessionToken : String) :
    externalIDs [(GetConfig.opts awsAccessKey awsSecretKey awsSessionToken :
      List (LoadOption ρ))] = [] := by
  unfold GetConfig.opts
  split <;> simp [externalIDs]

theorem GetConfig_externalIDs (loader : Loader ε ρ)
    (awsAccessKey awsSecretKey awsSessionToken assumeRoleArn : String)
    (externalId : Option String) (env : ε)
    (cfg : Config ρ) (hrole : assumeRoleArn ≠ "")
    (hload : (loader (GetConfig.opts awsAccessKey awsSecretKey awsSessionToken) env).1
      = .ok cfg) :
    externalIDs (GetConfig loader awsAccessKey awsSecretKey awsSessionToken assumeRoleArn
        externalId (LoadWorld.init env)).2.loads
      = [GetConfig.externalId externalId] := by
  have hst := externalIDs_static (ρ := ρ) awsAccessKey awsSecretKey awsSessionToken
  simp only [GetConfig, LoadDefaultConfig, LoadWorld.init, hload, if_pos hrole,
    List.nil_append]
  split
  · rename_i heq
    have h2 := (Prod.mk.inj heq).2
    rw [← h2]
    simp only [externalIDs_append, hst, List.nil_append]
    simp [externalIDs, NewAssumeRoleProvider]
  · rename_i heq
    have h2 := (Prod.mk.inj heq).2
    rw [← h2]
    simp only [externalIDs_append, hst, List.nil_append]
    simp [externalIDs, NewAssumeRoleProvider]

/-- Claim C8.  For every loader, all credentials and every non-empty role
ARN: `GetConfig` with an external ID that points to the empty string gives
the same result, after the same loader calls with the same options, as
`GetConfig` with no external ID; whenever the first load succeeds, so that
the assume-role provider is built, it is built with an absent `ExternalID` in
both runs; and with a non-empty external ID it is built with that string. -/
theorem empty_external_id_is_absent (loader : Loader ε ρ)
    (awsAccessKey awsSecretKey awsSessionToken assumeRoleArn : String) (env : ε)
    (hrole : assumeRoleArn ≠ "") :
    GetConfig loader awsAccessKey awsSecretKey awsSessionToken assumeRoleArn (some "")
        (LoadWorld.init env)
      = GetConfig loader awsAccessKey awsSecretKey awsSessionToken assumeRoleArn none
        (LoadWorld.init env) ∧
    ∀ cfg : Config ρ,
      (loader (GetConfig.opts awsAccessKey awsSecretKey awsSessionToken) env).1 = .ok cfg →
      externalIDs (GetConfig loader awsAccessKey awsSecretKey awsSessionToken assumeRoleArn
          (some "") (LoadWorld.init env)).2.loads = [none] ∧
      externalIDs (GetConfig loader awsAccessKey awsSecretKey awsSessionToken assumeRoleArn
          none (LoadWorld.init env)).2.loads = [none] ∧
      ∀ externalId : String, externalId ≠ "" →
        externalIDs (GetConfig loader awsAccessKey awsSecretKey awsSessionToken assumeRoleArn
          (some externalId) (LoadWorld.init env)).2.loads = [some externalId] := by
  refine ⟨?_, ?_⟩
  · simp [GetConfig, GetConfig.externalId]
  · intro cfg hload
    refine ⟨?_, ?_, ?_⟩
    · rw [GetConfig_externalIDs loader _ _ _ _ _ env cfg hrole hload]
      simp [GetConfig.externalId]
    · rw [GetConfig_externalIDs loader _ _ _ _ _ env cfg hrole hload]
      simp [GetConfig.externalId]
    · intro externalId hne
      rw [GetConfig_externalIDs loader _ _ _ _ _ env cfg hrole hload]
      simp [GetConfig.externalId, hne]

/-- Claim C8 at static credentials and a role ARN. -/
theorem empty_external_id_is_absent_witness :
    GetConfig noRegionLoader "AKIA" "secret" "" "arn:aws:iam::123456789012:role/audit"
        (some "") (LoadWorld.init ())
      = GetConfig noRegionLoader "AKIA" "secret" "" "arn:aws:iam::123456789012:role/audit"
        none (LoadWorld.init ()) ∧
    externalIDs (GetConfig noRegionLoader "AKIA" "secret" ""
        "arn:aws:iam::123456789012:role/audit" (some "") (LoadWorld.init ())).2.loads
      = [none] ∧
    externalIDs (GetConfig noRegionLoader "AKIA" "secret" ""
        "arn:aws:iam::123456789012:role/audit" (some "tenant-7")
        (LoadWorld.init ())).2.loads = [some "tenant-7"] :=
  have h := empty_external_id_is_absent noRegionLoader "AKIA" "secret" ""
    "arn:aws:iam::123456789012:role/audit" () (by decide)
  have hids := h.2 { Region := "", rest := () } rfl
  ⟨h.1, hids.1, hids.2.2 "tenant-7" (by decide)⟩

/-- Claim C9, evaluated at the failing input: in an environment with no region
configured and with a role ARN, `GetConfig` succeeds and returns a config
whose `Region` is empty, the fallback having been applied to the first
session only; without a role ARN it returns `us-east-1`. -/
theorem assumed_role_session_keeps_empty_region :
    (GetConfig noRegionLoader "" "" "" "arn:aws:iam::123456789012:role/audit" none
      (LoadWorld.init ())).1 = .ok { Region := "", rest := () } ∧
    (GetConfig noRegionLoader "" "" "" "" none (LoadWorld.init ())).1
      = .ok { Region := "us-east-1", rest := () } := by
  constructor <;> rfl

end Provider
